import Mathlib

/-!
Verification of the Email-Todo-List ingestion and classification core.

Strings are modelled as lists of characters (`Str`).  Python string
primitives (`str.split`, `str.strip`, `str.splitlines`, `str.replace`,
`str.count`, base64url decoding) are embedded as executable Lean
functions over the ASCII/Latin-1 fragment of Unicode that the repository
manipulates.  Python regular expressions used by the classifier are
embedded as an abstract-syntax tree (`Re`) together with a complete
backtracking matcher; `re.search` truthiness becomes `reSearch`.
Regular expressions whose captured groups matter (the subject-line
extractor, the reply-header recognizers and the HTML tag stripper) are
embedded as dedicated recognizer functions that realize the exact
leftmost-match semantics of the Python originals.
-/

namespace EmailTodo

/-- Strings as lists of characters. -/
abbrev Str := List Char

/-- Coerce a Lean string literal to the `Str` model. -/
def ts (s : String) : Str := s.toList

/-- The whitespace characters recognized by Python `str.split`, `str.strip`
and regex `\s` (ASCII/Latin-1 fragment plus the Unicode line separators). -/
def spaceChars : Str :=
  [' ', '\t', '\n', '\r', '\x0b', '\x0c', '\x1c', '\x1d', '\x1e', '\x1f',
   '\x85', '\xa0', '\u2028', '\u2029']

/-- Python whitespace test (`str.isspace` on the modelled fragment). -/
def pyIsSpace (c : Char) : Bool := spaceChars.contains c

/-- The line terminators recognized by Python `str.splitlines`
(`\r\n` is treated as a single terminator by `pySplitlines`). -/
def termChars : Str :=
  ['\n', '\r', '\x0b', '\x0c', '\x1c', '\x1d', '\x1e', '\x85', '\u2028', '\u2029']

/-- Line-terminator test. -/
def isTermChar (c : Char) : Bool := termChars.contains c

/-- Python `str.lstrip()`. -/
def pyLstrip (s : Str) : Str := s.dropWhile pyIsSpace

/-- Python `str.rstrip()`. -/
def pyRstrip (s : Str) : Str := (s.reverse.dropWhile pyIsSpace).reverse

/-- Python `str.strip()`. -/
def pyStrip (s : Str) : Str := pyRstrip (pyLstrip s)

/-- Worker for `pySplitWs`; accumulates the current word in reverse. -/
def splitWsGo : Str → Str → List Str
  | [], acc => if acc = [] then [] else [acc.reverse]
  | c :: rest, acc =>
    if pyIsSpace c then
      if acc = [] then splitWsGo rest [] else acc.reverse :: splitWsGo rest []
    else splitWsGo rest (c :: acc)

/-- Python `str.split()` with no separator: split on whitespace runs,
dropping empty fields. -/
def pySplitWs (s : Str) : List Str := splitWsGo s []

/-- Whitespace normalization used by the classifier:
Python `" ".join(text.split())`. -/
def collapse (s : Str) : Str := List.intercalate [' '] (pySplitWs s)

/-- Worker for `pySplitlines`; accumulates the current line in reverse.
A `\r\n` pair counts as a single terminator. Fuel bounds the recursion
(one unit per consumed character suffices); `pySplitlines` supplies
`s.length`, which is always enough. -/
def splitlinesGo : Nat → Str → Str → List Str
  | _, [], acc => if acc = [] then [] else [acc.reverse]
  | 0, _ :: _, acc => [acc.reverse]
  | fuel + 1, c :: rest, acc =>
    if c = '\r' then
      match rest with
      | '\n' :: rest2 => acc.reverse :: splitlinesGo fuel rest2 []
      | _ => acc.reverse :: splitlinesGo fuel rest []
    else if isTermChar c then acc.reverse :: splitlinesGo fuel rest []
    else splitlinesGo fuel rest (c :: acc)

/-- Python `str.splitlines()` (no `keepends`). -/
def pySplitlines (s : Str) : List Str := splitlinesGo s.length s []

/-- Lower-case a string character-wise (`str.lower` on the modelled fragment). -/
def lowerStr (s : Str) : Str := s.map Char.toLower

/-- Case-insensitive "is a prefix of" test. -/
def ciPre (pat s : Str) : Bool := lowerStr (s.take pat.length) == lowerStr pat

/-- Fueled worker for `countSub`. -/
def countSubF : Nat → Str → Str → Nat
  | 0, _, _ => 0
  | f + 1, sub, s =>
    if sub ≠ [] ∧ sub.isPrefixOf s then 1 + countSubF f sub (s.drop sub.length)
    else match s with
      | [] => 0
      | _ :: rest => countSubF f sub rest

/-- Python `str.count(sub)` for a non-empty `sub`:
number of non-overlapping occurrences, scanning left to right. -/
def countSub (sub s : Str) : Nat := countSubF (s.length + 1) sub s

/-- Decimal rendering of a natural number (for the f-string interpolations
in the classifier's matched-pattern messages). -/
def natToStr (n : Nat) : Str := Nat.toDigits 10 n

/-! ## Regular-expression engine

An AST for the fragment of Python `re` used by the classifier patterns,
with a complete (all-backtracks) matcher.  Only match *existence* is
needed by the code that goes through this engine (`regex.search(text)`
used as a boolean), so the result order of `matchEnds` is irrelevant;
completeness is what matters.  The matcher is fueled so that it is
structural and hence computable by the kernel; `reSearch` supplies fuel
that is far beyond what any backtracking path can consume. -/

/-- One item of a character class: a literal character or a range. -/
inductive ClsIt where
  | ch (c : Char)
  | rng (lo hi : Char)
deriving DecidableEq

/-- Regex AST: epsilon, literal, `.`, character class (possibly negated),
concatenation, alternation, Kleene star, option, `\b`, and `$`. -/
inductive Re where
  | eps
  | lit (c : Char)
  | anyc
  | cls (neg : Bool) (items : List ClsIt)
  | seq (a b : Re)
  | alt (a b : Re)
  | star (a : Re)
  | opt (a : Re)
  | wordB
  | eos
deriving DecidableEq

/-- Case-sensitive or case-insensitive character comparison
(`re.IGNORECASE` lowers both sides). -/
def charMatch (ci : Bool) (c d : Char) : Bool :=
  c = d || (ci && c.toLower = d.toLower)

/-- Does character `d` match one class item? -/
def clsItMatch (ci : Bool) (it : ClsIt) (d : Char) : Bool :=
  match it with
  | .ch c => charMatch ci c d
  | .rng lo hi => lo ≤ d && d ≤ hi

/-- Does character `d` match a (possibly negated) class? -/
def clsMatch (ci : Bool) (neg : Bool) (items : List ClsIt) (d : Char) : Bool :=
  if neg then !(items.any (fun it => clsItMatch ci it d))
  else items.any (fun it => clsItMatch ci it d)

/-- Python `\w` (ASCII fragment). -/
def wordChar (c : Char) : Bool := c.isAlphanum || c = '_'

/-- Is the point between `prev` and the head of `s` a `\b` word boundary? -/
def atWordB (prev : Option Char) (s : Str) : Bool :=
  let pw := match prev with | some c => wordChar c | none => false
  let nw := match s with | c :: _ => wordChar c | [] => false
  pw != nw

/-- Structural size of a regex, used to compute a sufficient fuel. -/
def reSize : Re → Nat
  | .eps | .lit _ | .anyc | .cls _ _ | .wordB | .eos => 1
  | .seq a b | .alt a b => reSize a + reSize b + 1
  | .star a | .opt a => reSize a + 1

/-- All ways a regex can match a prefix of `s` (given the previous
character `prev` for `\b`); returns the `(previous character, remaining
suffix)` pairs after each possible match.  `star` only iterates on
strictly shorter suffixes, which preserves the matched language and
guarantees progress. -/
def matchEnds : Nat → Bool → Re → Option Char → Str → List (Option Char × Str)
  | 0, _, _, _, _ => []
  | f + 1, ci, re, prev, s =>
    match re with
    | .eps => [(prev, s)]
    | .lit c =>
      match s with
      | [] => []
      | d :: rest => if charMatch ci c d then [(some d, rest)] else []
    | .anyc =>
      match s with
      | [] => []
      | d :: rest => if d = '\n' then [] else [(some d, rest)]
    | .cls neg items =>
      match s with
      | [] => []
      | d :: rest => if clsMatch ci neg items d then [(some d, rest)] else []
    | .seq a b => (matchEnds f ci a prev s).flatMap fun pr => matchEnds f ci b pr.1 pr.2
    | .alt a b => matchEnds f ci a prev s ++ matchEnds f ci b prev s
    | .opt a => matchEnds f ci a prev s ++ [(prev, s)]
    | .star a =>
      (prev, s) ::
        ((matchEnds f ci a prev s).filter (fun pr => pr.2.length < s.length)).flatMap
          fun pr => matchEnds f ci (.star a) pr.1 pr.2
    | .wordB => if atWordB prev s then [(prev, s)] else []
    | .eos => if s = [] || s = ['\n'] then [(prev, s)] else []

/-- Try a match at every start position, tracking the previous character. -/
def searchFrom (f : Nat) (ci : Bool) (re : Re) : Option Char → Str → Bool
  | prev, [] => !(matchEnds f ci re prev []).isEmpty
  | prev, c :: rest =>
    !(matchEnds f ci re prev (c :: rest)).isEmpty || searchFrom f ci re (some c) rest

/-- Truthiness of Python `regex.search(s)`. -/
def reSearch (ci : Bool) (re : Re) (s : Str) : Bool :=
  searchFrom ((s.length + 1) * (reSize re + 2)) ci re none s

/-- Regex denoting a literal string. -/
def rs : Str → Re
  | [] => .eps
  | [c] => .lit c
  | c :: rest => .seq (.lit c) (rs rest)

/-- Literal-string regex from a Lean string literal. -/
def rl (s : String) : Re := rs s.toList

/-- Alternation of a non-empty list of regexes. -/
def altL : List Re → Re
  | [] => .eps
  | [r] => r
  | r :: rest => .alt r (altL rest)

/-- `r+` as `r r*`. -/
def rplus (r : Re) : Re := .seq r (.star r)

/-- Regex `\s` (one whitespace character). -/
def sCls : Re := .cls false (spaceChars.map .ch)

/-- Sequence of a non-empty list of regexes. -/
def seqL : List Re → Re
  | [] => .eps
  | [r] => r
  | r :: rest => .seq r (seqL rest)

/-! ## Classifier pattern tables (`src/classifier/rule_based.py`)

Each entry pairs the original Python pattern text (used verbatim by the
matched-pattern debug messages) with its embedding into `Re`.  All
classifier patterns are compiled with `re.IGNORECASE`. -/

/-- The apostrophe character (U+0027), used by several casual patterns. -/
def aposC : Char := Char.ofNat 39

/-- Wrap a regex in `\b ... \b`. -/
def wb (r : Re) : Re := seqL [.wordB, r, .wordB]

/-- `CASUAL_PATTERNS["strong_casual"]` (weight +2.0). -/
def STRONG_CASUAL : List (String × Re) := [
  ("\\b(lol|lmao|rofl|haha+|hehe+|ha ha)\\b",
    wb (altL [rl "lol", rl "lmao", rl "rofl", .seq (rl "hah") (rplus (.lit 'a')),
      .seq (rl "heh") (rplus (.lit 'e')), rl "ha ha"])),
  ("\\b(omg|wtf|btw|fyi|imho|imo)\\b",
    wb (altL [rl "omg", rl "wtf", rl "btw", rl "fyi", rl "imho", rl "imo"])),
  ("\\b(love you|miss you|xoxo|hugs|kisses)\\b",
    wb (altL [rl "love you", rl "miss you", rl "xoxo", rl "hugs", rl "kisses"])),
  ("\\b(sweetie|honey|babe|sweetheart)\\b",
    wb (altL [rl "sweetie", rl "honey", rl "babe", rl "sweetheart"])),
  ("\\b(happy birthday|merry christmas|happy thanksgiving|happy new year)\\b",
    wb (altL [rl "happy birthday", rl "merry christmas", rl "happy thanksgiving",
      rl "happy new year"])),
  ("\\b(birthday party|wedding|baby shower|anniversary)\\b",
    wb (altL [rl "birthday party", rl "wedding", rl "baby shower", rl "anniversary"])),
  ("\\b(congratulations|congrats)\\b.*\\b(baby|wedding|engaged|new house)\\b",
    seqL [.wordB, altL [rl "congratulations", rl "congrats"], .wordB, .star .anyc,
      .wordB, altL [rl "baby", rl "wedding", rl "engaged", rl "new house"], .wordB]),
  ("\\b(party|bbq|barbecue|potluck|cookout)\\b",
    wb (altL [rl "party", rl "bbq", rl "barbecue", rl "potluck", rl "cookout"])),
  ("\\b(sleepover|house party|get[- ]together)\\b",
    wb (altL [rl "sleepover", rl "house party",
      seqL [rl "get", .cls false [.ch '-', .ch ' '], rl "together"]])),
  ("\\b(vacation|holiday|road trip|weekend getaway)\\b",
    wb (altL [rl "vacation", rl "holiday", rl "road trip", rl "weekend getaway"])),
  ("\\b(beach|camping|hiking|fishing trip)\\b",
    wb (altL [rl "beach", rl "camping", rl "hiking", rl "fishing trip"])),
  ("\\b(god bless|prayers?|church|sermon)\\b",
    wb (altL [rl "god bless", .seq (rl "prayer") (.opt (.lit 's')), rl "church",
      rl "sermon"])),
  ("\\b(easter|thanksgiving dinner|christmas party)\\b",
    wb (altL [rl "easter", rl "thanksgiving dinner", rl "christmas party"]))]

/-- `CASUAL_PATTERNS["medium_casual"]` (weight +1.0). -/
def MEDIUM_CASUAL : List (String × Re) := [
  ("\\b(want to|wanna|gonna)\\s+(grab|get|have)\\s+(lunch|dinner|drinks|coffee|beer)\\b",
    seqL [.wordB, altL [rl "want to", rl "wanna", rl "gonna"], rplus sCls,
      altL [rl "grab", rl "get", rl "have"], rplus sCls,
      altL [rl "lunch", rl "dinner", rl "drinks", rl "coffee", rl "beer"], .wordB]),
  ("\\b(lunch|dinner|drinks)\\b.*\\b(today|tomorrow|friday|thursday)\\b",
    seqL [.wordB, altL [rl "lunch", rl "dinner", rl "drinks"], .wordB, .star .anyc,
      .wordB, altL [rl "today", rl "tomorrow", rl "friday", rl "thursday"], .wordB]),
  ("\\b(happy hour|after work drinks|grab a beer)\\b",
    wb (altL [rl "happy hour", rl "after work drinks", rl "grab a beer"])),
  ("\\b(let\x27?s (do|get|grab) (lunch|dinner|drinks|coffee))\\b",
    wb (seqL [rl "let", .opt (.lit aposC), rl "s ", altL [rl "do", rl "get", rl "grab"],
      rl " ", altL [rl "lunch", rl "dinner", rl "drinks", rl "coffee"]])),
  ("\\b(football|baseball|basketball|hockey|golf|tennis)\\s*(game|match|tournament)\\b",
    seqL [.wordB, altL [rl "football", rl "baseball", rl "basketball", rl "hockey",
      rl "golf", rl "tennis"], .star sCls,
      altL [rl "game", rl "match", rl "tournament"], .wordB]),
  ("\\b(playoffs|championship|superbowl|super bowl|world series)\\b",
    wb (altL [rl "playoffs", rl "championship", rl "superbowl", rl "super bowl",
      rl "world series"])),
  ("\\b(fantasy football|fantasy baseball|fantasy league|draft)\\b",
    wb (altL [rl "fantasy football", rl "fantasy baseball", rl "fantasy league",
      rl "draft"])),
  ("\\b(astros|texans|rockets|oilers|cowboys|spurs|rangers|mavs|mavericks)\\b",
    wb (altL [rl "astros", rl "texans", rl "rockets", rl "oilers", rl "cowboys",
      rl "spurs", rl "rangers", rl "mavs", rl "mavericks"])),
  ("\\b(ncaa|march madness|bowl game)\\b",
    wb (altL [rl "ncaa", rl "march madness", rl "bowl game"])),
  ("\\b(did you see the game|watch the game|game last night)\\b",
    wb (altL [rl "did you see the game", rl "watch the game", rl "game last night"])),
  ("\\b(my (mom|dad|mother|father|brother|sister|wife|husband|son|daughter|kids?))\\b",
    wb (seqL [rl "my ", altL [rl "mom", rl "dad", rl "mother", rl "father",
      rl "brother", rl "sister", rl "wife", rl "husband", rl "son", rl "daughter",
      .seq (rl "kid") (.opt (.lit 's'))]])),
  ("\\b(the kids?|my family|the family)\\b.*\\b(birthday|school|soccer|little league|recital)\\b",
    seqL [.wordB, altL [.seq (rl "the kid") (.opt (.lit 's')), rl "my family",
      rl "the family"], .wordB, .star .anyc, .wordB,
      altL [rl "birthday", rl "school", rl "soccer", rl "little league",
        rl "recital"], .wordB]),
  ("\\b(joke|funny|hilarious|check this out|you\x27?ll love this)\\b",
    wb (altL [rl "joke", rl "funny", rl "hilarious", rl "check this out",
      seqL [rl "you", .opt (.lit aposC), rl "ll love this"]])),
  ("(fw:|fwd:|forwarded).*\\b(joke|funny|humor|laugh)\\b",
    seqL [altL [rl "fw:", rl "fwd:", rl "forwarded"], .star .anyc, .wordB,
      altL [rl "joke", rl "funny", rl "humor", rl "laugh"], .wordB]),
  ("\\b(this is (so )?funny|too funny|made me laugh)\\b",
    wb (altL [seqL [rl "this is ", .opt (rl "so "), rl "funny"], rl "too funny",
      rl "made me laugh"])),
  ("\\b(this weekend|next weekend|saturday|sunday)\\b.*\\b(plan|doing|free|busy)\\b",
    seqL [.wordB, altL [rl "this weekend", rl "next weekend", rl "saturday",
      rl "sunday"], .wordB, .star .anyc, .wordB,
      altL [rl "plan", rl "doing", rl "free", rl "busy"], .wordB]),
  ("\\b(movie|concert|show|game)\\b.*\\b(tonight|tomorrow|weekend|friday)\\b",
    seqL [.wordB, altL [rl "movie", rl "concert", rl "show", rl "game"], .wordB,
      .star .anyc, .wordB,
      altL [rl "tonight", rl "tomorrow", rl "weekend", rl "friday"], .wordB]),
  ("\\b(are you free|you free|got plans|any plans)\\b",
    wb (altL [rl "are you free", rl "you free", rl "got plans", rl "any plans"])),
  ("\\b(how are you|how\x27?s it going|how\x27?s everything|what\x27?s up|what\x27?s new)\\b",
    wb (altL [rl "how are you",
      seqL [rl "how", .opt (.lit aposC), rl "s it going"],
      seqL [rl "how", .opt (.lit aposC), rl "s everything"],
      seqL [rl "what", .opt (.lit aposC), rl "s up"],
      seqL [rl "what", .opt (.lit aposC), rl "s new"]])),
  ("\\b(sorry to hear|hope you feel better|get well soon|feeling better)\\b",
    wb (altL [rl "sorry to hear", rl "hope you feel better", rl "get well soon",
      rl "feeling better"])),
  ("\\b(good to see you|great seeing you|nice to meet)\\b",
    wb (altL [rl "good to see you", rl "great seeing you", rl "nice to meet"])),
  ("\\b(my (dog|cat|pet)|the (dog|cat)|puppy|kitten)\\b",
    wb (altL [seqL [rl "my ", altL [rl "dog", rl "cat", rl "pet"]],
      seqL [rl "the ", altL [rl "dog", rl "cat"]], rl "puppy", rl "kitten"])),
  ("\\b(pick up|drop off|grocery|dry clean|pharmacy|doctor)\\b",
    wb (altL [rl "pick up", rl "drop off", rl "grocery", rl "dry clean",
      rl "pharmacy", rl "doctor"])),
  ("\\b(appointment|dentist|vet|haircut)\\b",
    wb (altL [rl "appointment", rl "dentist", rl "vet", rl "haircut"])),
  ("\\b(later|cheers|peace out?|take it easy|cya)\\b",
    wb (altL [rl "later", rl "cheers", .seq (rl "peace ou") (.opt (.lit 't')),
      rl "take it easy", rl "cya"])),
  ("\\b(gotta go|gotta run|talk later)\\b",
    wb (altL [rl "gotta go", rl "gotta run", rl "talk later"])),
  ("\\b(tickets?|seats?)\\b.*\\b(game|concert|show)\\b",
    seqL [.wordB, altL [.seq (rl "ticket") (.opt (.lit 's')),
      .seq (rl "seat") (.opt (.lit 's'))], .wordB, .star .anyc, .wordB,
      altL [rl "game", rl "concert", rl "show"], .wordB]),
  ("\\b(tee time|golf course|round of golf)\\b",
    wb (altL [rl "tee time", rl "golf course", rl "round of golf"]))]

/-- `CASUAL_PATTERNS["weak_casual"]` (weight +0.5, needs multiple matches). -/
def WEAK_CASUAL : List (String × Re) := [
  ("\\b(thanks!+|great!+|awesome!+|cool!+|nice!+|sweet!+)\\b",
    wb (altL [.seq (rl "thanks") (rplus (.lit '!')),
      .seq (rl "great") (rplus (.lit '!')), .seq (rl "awesome") (rplus (.lit '!')),
      .seq (rl "cool") (rplus (.lit '!')), .seq (rl "nice") (rplus (.lit '!')),
      .seq (rl "sweet") (rplus (.lit '!'))])),
  ("\\b(see you|talk soon|take care|catch you later|ttyl)\\b",
    wb (altL [rl "see you", rl "talk soon", rl "take care", rl "catch you later",
      rl "ttyl"])),
  ("\\b(hey|hi there|hello)\\b",
    wb (altL [rl "hey", rl "hi there", rl "hello"])),
  ("\\b(yeah|yep|nope|nah|sure thing)\\b",
    wb (altL [rl "yeah", rl "yep", rl "nope", rl "nah", rl "sure thing"])),
  ("\\b(sounds good|sounds great|sounds fun)\\b",
    wb (altL [rl "sounds good", rl "sounds great", rl "sounds fun"])),
  ("\\b(no problem|no worries|don\x27?t worry)\\b",
    wb (altL [rl "no problem", rl "no worries",
      seqL [rl "don", .opt (.lit aposC), rl "t worry"]])),
  ("\\b(anyway|anyways|anyhow)\\b",
    wb (altL [rl "anyway", rl "anyways", rl "anyhow"])),
  (":[\\)\\(DPp]|;\\)|<3",
    altL [.seq (.lit ':') (.cls false [.ch ')', .ch '(', .ch 'D', .ch 'P', .ch 'p']),
      .seq (.lit ';') (.lit ')'), rl "<3"])]

/-- `BUSINESS_PATTERNS["strong_business"]` (weight -2.0). -/
def STRONG_BUSINESS : List (String × Re) := [
  ("\\b(contract|agreement|invoice|purchase order|NDA)\\b",
    wb (altL [rl "contract", rl "agreement", rl "invoice", rl "purchase order",
      rl "NDA"])),
  ("\\b(quarterly|annual report|10-?K|SEC filing)\\b",
    wb (altL [rl "quarterly", rl "annual report",
      seqL [rl "10", .opt (.lit '-'), .lit 'K'], rl "SEC filing"])),
  ("\\b(confidential|privileged|attorney[- ]client)\\b",
    wb (altL [rl "confidential", rl "privileged",
      seqL [rl "attorney", .cls false [.ch '-', .ch ' '], rl "client"]])),
  ("\\b(fiscal|budget|revenue|profit|variance)\\b",
    wb (altL [rl "fiscal", rl "budget", rl "revenue", rl "profit", rl "variance"])),
  ("\\b(forecast|projection|estimate)\\b",
    wb (altL [rl "forecast", rl "projection", rl "estimate"])),
  ("\\b(deal|transaction|acquisition|merger)\\b",
    wb (altL [rl "deal", rl "transaction", rl "acquisition", rl "merger"])),
  ("\\b(client|customer|vendor|supplier|counterparty)\\b",
    wb (altL [rl "client", rl "customer", rl "vendor", rl "supplier",
      rl "counterparty"])),
  ("\\b(stakeholder|management|executive|board)\\b",
    wb (altL [rl "stakeholder", rl "management", rl "executive", rl "board"]))]

/-- `BUSINESS_PATTERNS["medium_business"]` (weight -1.0). -/
def MEDIUM_BUSINESS : List (String × Re) := [
  ("\\b(meeting|conference call|dial[- ]in|teleconference)\\b",
    wb (altL [rl "meeting", rl "conference call",
      seqL [rl "dial", .cls false [.ch '-', .ch ' '], rl "in"], rl "teleconference"])),
  ("\\b(schedule|calendar|agenda|minutes)\\b",
    wb (altL [rl "schedule", rl "calendar", rl "agenda", rl "minutes"])),
  ("\\b(action items?|follow[- ]up|next steps)\\b",
    wb (altL [.seq (rl "action item") (.opt (.lit 's')),
      seqL [rl "follow", .cls false [.ch '-', .ch ' '], rl "up"], rl "next steps"])),
  ("\\b(deadline|deliverable|milestone|due date)\\b",
    wb (altL [rl "deadline", rl "deliverable", rl "milestone", rl "due date"])),
  ("\\b(eod|cob|end of day|close of business)\\b",
    wb (altL [rl "eod", rl "cob", rl "end of day", rl "close of business"])),
  ("\\b(asap|urgent|priority|time[- ]sensitive)\\b",
    wb (altL [rl "asap", rl "urgent", rl "priority",
      seqL [rl "time", .cls false [.ch '-', .ch ' '], rl "sensitive"]])),
  ("\\b(attached|enclosed|per our discussion|as discussed)\\b",
    wb (altL [rl "attached", rl "enclosed", rl "per our discussion",
      rl "as discussed"])),
  ("\\b(please review|for your (review|approval)|kindly review)\\b",
    wb (altL [rl "please review",
      seqL [rl "for your ", altL [rl "review", rl "approval"]], rl "kindly review"])),
  ("\\b(draft|revision|version|redline)\\b",
    wb (altL [rl "draft", rl "revision", rl "version", rl "redline"])),
  ("\\b(proposal)\\b", wb (rl "proposal")),
  ("\\b(pursuant to|in accordance with|regarding|re:)\\b",
    wb (altL [rl "pursuant to", rl "in accordance with", rl "regarding", rl "re:"]))]

/-- `BUSINESS_PATTERNS["weak_business"]` (weight -0.5). -/
def WEAK_BUSINESS : List (String × Re) := [
  ("\\b(regards|sincerely|best regards)\\b",
    wb (altL [rl "regards", rl "sincerely", rl "best regards"])),
  ("\\b(please advise|please confirm|please let me know)\\b",
    wb (altL [rl "please advise", rl "please confirm", rl "please let me know"])),
  ("\\b(best)\\b$",
    seqL [.wordB, rl "best", .wordB, .eos])]

/-! ## Subject-line analysis (`analyze_subject`)

`re.search(r"subject:\s*(.+?)(\n|$)", text, re.IGNORECASE)` is embedded
as a dedicated recognizer returning capture group 1: at the leftmost
`subject:` occurrence, `\s*` is greedy with backtracking, `(.+?)` is
lazy (stops at the first `\n` or at the end of the string) and must
match at least one non-newline character. -/

/-- The literal marker matched case-insensitively by the subject regex. -/
def subjMarker : Str := ts ("subject:")

/-- Given the text following a `subject:` occurrence, return capture
group 1 of `\s*(.+?)(\n|$)` if the rest of the pattern matches here. -/
def subjAfter (tail : Str) : Option Str :=
  let run := tail.takeWhile pyIsSpace
  let rest := tail.dropWhile pyIsSpace
  if rest.isEmpty then
    match run.reverse.findIdx? (fun c => c ≠ '\n') with
    | none => none
    | some j => some ((run.drop (run.length - 1 - j)).takeWhile (fun c => c ≠ '\n'))
  else some (rest.takeWhile (fun c => c ≠ '\n'))

/-- Leftmost-match search for the subject regex, returning group 1. -/
def findSubjectGroup : Str → Option Str
  | [] => none
  | c :: rest =>
    if ciPre subjMarker (c :: rest) then
      match subjAfter ((c :: rest).drop 8) with
      | some g => some g
      | none => findSubjectGroup rest
    else findSubjectGroup rest

/-- Business subject keywords: `\b(Q[1-4]|budget|report|meeting|action|agenda)\b`. -/
def subjBizRe : Re :=
  seqL [.wordB, altL [.seq (.lit 'Q') (.cls false [.rng '1' '4']), rl "budget",
    rl "report", rl "meeting", rl "action", rl "agenda"], .wordB]

/-- Casual subject keywords: `\b(joke|funny|fwd|fw|re: re:|lol|haha)\b`. -/
def subjCasRe : Re :=
  seqL [.wordB, altL [rl "joke", rl "funny", rl "fwd", rl "fw", rl "re: re:",
    rl "lol", rl "haha"], .wordB]

/-- The subject rules of `analyze_subject`, evaluated on capture group 1:
forward-marker counting, the business keyword rule and the casual
keyword rule. -/
def subjectRules (subject : Str) : ℚ × List Str :=
  let fwCount := countSub (ts ("fw:")) (lowerStr subject)
    + countSub (ts ("fwd:")) (lowerStr subject)
  let fwHit := 2 ≤ fwCount
  let bizHit := reSearch true subjBizRe subject
  let casHit := reSearch true subjCasRe subject
  ((if fwHit then 2 else 0) + (if bizHit then -1 else 0) + (if casHit then 1 else 0),
    (if fwHit then
      [ts ("SUBJ: multiple forwards (") ++ natToStr fwCount ++ ts ("x)")] else [])
    ++ (if bizHit then [ts ("SUBJ: business keyword")] else [])
    ++ (if casHit then [ts ("SUBJ: casual keyword")] else []))

/-- `analyze_subject`: extract the subject capture and return the score
modifier and matched-rule messages. -/
def analyze_subject (text : Str) : ℚ × List Str :=
  match findSubjectGroup text with
  | none => (0, [])
  | some subject => subjectRules subject

/-! ## The classification engine (`classify_email`) -/

/-- The entries of a pattern table whose regex matches the text. -/
def hitsOf (table : List (String × Re)) (text : Str) : List (String × Re) :=
  table.filter (fun e => reSearch true e.2 text)

/-- Number of weak-business patterns matching the text. -/
def weakBizCount (text : Str) : Nat := (hitsOf WEAK_BUSINESS text).length

/-- Number of weak-casual patterns matching the text. -/
def weakCasCount (text : Str) : Nat := (hitsOf WEAK_CASUAL text).length

/-- Score contribution of the weak-business tier: fires from the first
match (`weak_biz_count >= 1`), subtracting 0.5 per matching pattern. -/
def weakBizTerm (text : Str) : ℚ :=
  if 1 ≤ weakBizCount text then -((1 : ℚ)/2 * weakBizCount text) else 0

/-- Score contribution of the weak-casual tier: fires only with at least
two matching patterns (`weak_count >= 2`), adding 0.5 per pattern. -/
def weakCasTerm (text : Str) : ℚ :=
  if 2 ≤ weakCasCount text then (1 : ℚ)/2 * weakCasCount text else 0

/-- The running score of `classify_email` after all pattern tiers, before
the short-message boost.  The argument is the whitespace-collapsed text. -/
def scoreParts (text : Str) : ℚ :=
  (analyze_subject text).1
    - 2 * ((hitsOf STRONG_BUSINESS text).length : ℚ)
    - ((hitsOf MEDIUM_BUSINESS text).length : ℚ)
    + weakBizTerm text
    + 2 * ((hitsOf STRONG_CASUAL text).length : ℚ)
    + ((hitsOf MEDIUM_CASUAL text).length : ℚ)
    + weakCasTerm text

/-- `len(text.split())` on the collapsed text. -/
def wordCount (text : Str) : Nat := (pySplitWs text).length

/-- Did the short-message boost fire? -/
def shortBoost (text : Str) : Bool :=
  wordCount text ≤ 10 && decide (0 < scoreParts text)

/-- The final score of `classify_email` on the collapsed text. -/
def finalScoreText (text : Str) : ℚ :=
  scoreParts text + (if shortBoost text then (1 : ℚ)/2 else 0)

/-- The final score of `classify_email` on the raw email text. -/
def finalScore (email_text : Str) : ℚ := finalScoreText (collapse email_text)

/-- The matched-pattern debug messages, in emission order. -/
def matchedList (text : Str) : List Str :=
  (analyze_subject text).2
  ++ (hitsOf STRONG_BUSINESS text).map
      (fun e => ts ("BIZ_STRONG: ") ++ (ts e.1).take 30 ++ ts ("..."))
  ++ (hitsOf MEDIUM_BUSINESS text).map
      (fun e => ts ("BIZ_MED: ") ++ (ts e.1).take 30 ++ ts ("..."))
  ++ (if 1 ≤ weakBizCount text then
      [ts ("BIZ_WEAK: ") ++ natToStr (weakBizCount text) ++ ts (" patterns")] else [])
  ++ (hitsOf STRONG_CASUAL text).map
      (fun e => ts ("CASUAL_STRONG: ") ++ (ts e.1).take 30 ++ ts ("..."))
  ++ (hitsOf MEDIUM_CASUAL text).map
      (fun e => ts ("CASUAL_MED: ") ++ (ts e.1).take 30 ++ ts ("..."))
  ++ (if 2 ≤ weakCasCount text then
      [ts ("CASUAL_WEAK: ") ++ natToStr (weakCasCount text) ++ ts (" patterns")] else [])
  ++ (if shortBoost text then
      [ts ("SHORT_BOOST: ") ++ natToStr (wordCount text) ++ ts (" words")] else [])

/-- `classify_email`: returns `(is_casual, confidence, matched_patterns)`;
`is_casual` is `score > 0`, `confidence` is `min(abs(score)/5.0, 1.0)`. -/
def classify_email (email_text : Str) : Bool × ℚ × List Str :=
  let text := collapse email_text
  (decide (0 < finalScoreText text), min (|finalScoreText text| / 5) 1,
    matchedList text)

/-- `reclassify_dataset`: flip business (1) entries to casual (0) when the
rule-based engine labels them casual with confidence at or above the
threshold; never touch other entries.  The mapping is modelled as an
ordered association list (Python dict iteration order). -/
def reclassify_dataset (emails_and_labels : List (Str × Int)) (threshold : ℚ) :
    List (Str × Int) :=
  emails_and_labels.map fun e =>
    if e.2 = 1 then
      let r := classify_email e.1
      if r.1 ∧ threshold ≤ r.2.1 then (e.1, 0) else e
    else e

/-! ## Reply stripping (`src/emails/read_mail.py`, `strip_replies`)

The seven reply-header patterns are applied with `p.match(line)`
(anchored at the start of the line).  Each is embedded as a dedicated
recognizer with the exact backtracking semantics of the original. -/

/-- `.+$`: at least one non-newline character, then end of string
(`$` also matches just before a single trailing newline). -/
def dotPlusEnd (s : Str) : Bool :=
  let body := if s.getLast? = some '\n' then s.dropLast else s
  !body.isEmpty && !body.contains '\n'

/-- `\s*.+$` (the continuation of `\s+` after its first character):
either `.+$` matches here, or one more whitespace character is consumed. -/
def spTail : Str → Bool
  | [] => false
  | c :: t => dotPlusEnd (c :: t) || (pyIsSpace c && spTail t)

/-- `\s+.+$`: one mandatory whitespace character then `spTail`. -/
def spPlusDotEnd : Str → Bool
  | [] => false
  | c :: t => pyIsSpace c && spTail t

/-- Scan for `.+ wrote:\s*$` (case-sensitive): some split point with a
non-empty newline-free prefix, the literal `" wrote:"`, then only
whitespace.  `seen` records whether at least one prefix character has
been consumed. -/
def wroteGo : Bool → Str → Bool
  | seen, s =>
    (seen && (ts (" wrote:")).isPrefixOf s && (s.drop 7).all pyIsSpace) ||
    (match s with
     | [] => false
     | c :: t => c ≠ '\n' && wroteGo true t)

/-- `On .+ wrote:\s*$` after the leading `\s*` has been consumed. -/
def reOnWroteCore (rest : Str) : Bool :=
  (ts ("On ")).isPrefixOf rest && wroteGo false (rest.drop 3)

/-- `^\s*On .+ wrote:\s*$` (case-sensitive). -/
def reOnWrote (line : Str) : Bool := reOnWroteCore (pyLstrip line)

/-- `-{2,}\s*Original Message\s*-{2,}\s*$` after the leading `\s*`. -/
def reOrigMsgDashesCore (r1 : Str) : Bool :=
  let d1 := r1.takeWhile (fun c => c = '-')
  let r2 := r1.dropWhile (fun c => c = '-')
  let r3 := r2.dropWhile pyIsSpace
  2 ≤ d1.length && ciPre (ts ("original message")) r3 &&
    (let r5 := (r3.drop 16).dropWhile pyIsSpace
     let d2 := r5.takeWhile (fun c => c = '-')
     let r6 := r5.dropWhile (fun c => c = '-')
     2 ≤ d2.length && r6.all pyIsSpace)

/-- `^\s*-{2,}\s*Original Message\s*-{2,}\s*$` (case-insensitive). -/
def reOrigMsgDashes (line : Str) : Bool := reOrigMsgDashesCore (pyLstrip line)

/-- `-----Original Message-----\s*$` after the leading `\s*`. -/
def reOrigMsgLitCore (rest : Str) : Bool :=
  ciPre (ts ("-----original message-----")) rest && (rest.drop 26).all pyIsSpace

/-- `^\s*-----Original Message-----\s*$` (case-insensitive). -/
def reOrigMsgLit (line : Str) : Bool := reOrigMsgLitCore (pyLstrip line)

/-- `KEY\s+.+$` after the leading `\s*`. -/
def reHeaderKeyCore (key : Str) (rest : Str) : Bool :=
  ciPre key rest && spPlusDotEnd (rest.drop key.length)

/-- `^\s*KEY\s+.+$` (case-insensitive), for `From:`/`Sent:`/`To:`/`Subject:`. -/
def reHeaderKey (key : Str) (line : Str) : Bool := reHeaderKeyCore key (pyLstrip line)

/-- `looks_like_reply_header`: any of the seven patterns matches. -/
def looksLikeReplyHeader (line : Str) : Bool :=
  reOnWrote line || reOrigMsgDashes line ||
  reHeaderKey (ts ("from:")) line || reHeaderKey (ts ("sent:")) line ||
  reHeaderKey (ts ("to:")) line || reHeaderKey (ts ("subject:")) line ||
  reOrigMsgLit line

/-- Does the line, after left-strip, start with the quote marker. -/
def isQuoteLine (line : Str) : Bool :=
  match pyLstrip line with
  | '>' :: _ => true
  | _ => false

/-- The collection loop of `strip_replies`: stop at the first
reply-header line, skip quoted lines, keep the rest. -/
def keepLines : List Str → List Str
  | [] => []
  | l :: ls =>
    if looksLikeReplyHeader l then []
    else if isQuoteLine l then keepLines ls
    else l :: keepLines ls

/-- A line that Python considers blank: `not line.strip()`. -/
def isBlankLine (l : Str) : Bool := (pyStrip l).isEmpty

/-- Remove trailing blank lines (the `while kept and not kept[-1].strip()`
loop). -/
def dropTrailingBlanks (ls : List Str) : List Str :=
  (ls.reverse.dropWhile isBlankLine).reverse

/-- `strip_replies`: keep only the top-level authored content. -/
def strip_replies (email_text : Str) : Str :=
  if email_text.isEmpty then []
  else
    let kept := keepLines (pySplitlines email_text)
    pyStrip (List.intercalate ['\n'] (dropTrailingBlanks kept))

/-! ## HTML reduction (`_html_to_text`) -/

/-- Rest of the string after the first `>`, if any. -/
def dropToGt : Str → Option Str
  | [] => none
  | c :: rest => if c = '>' then some rest else dropToGt rest

/-- Rest of the string after the first case-insensitive occurrence of
`pat`, if any (`pat` is non-empty at every use site). -/
def dropToCiSub (pat : Str) : Str → Option Str
  | [] => none
  | c :: rest =>
    if ciPre pat (c :: rest) then some ((c :: rest).drop pat.length)
    else dropToCiSub pat rest

/-- Fueled worker for `stripScriptStyle`: the leftmost-match semantics of
`re.sub(r"(?is)<(script|style).*?>.*?(</\1>)", "", html)`.  At a
`<script`/`<style` opener the lazy groups resolve to: the first `>`
after the keyword, then the first matching close tag after that `>`. -/
def sssF : Nat → Str → Str
  | 0, s => s
  | f + 1, s =>
    match s with
    | [] => []
    | c :: rest =>
      if ciPre (ts ("<script")) (c :: rest) then
        match dropToGt ((c :: rest).drop 7) with
        | some afterGt =>
          match dropToCiSub (ts ("</script>")) afterGt with
          | some afterClose => sssF f afterClose
          | none => c :: sssF f rest
        | none => c :: sssF f rest
      else if ciPre (ts ("<style")) (c :: rest) then
        match dropToGt ((c :: rest).drop 6) with
        | some afterGt =>
          match dropToCiSub (ts ("</style>")) afterGt with
          | some afterClose => sssF f afterClose
          | none => c :: sssF f rest
        | none => c :: sssF f rest
      else c :: sssF f rest

/-- Remove `<script>`/`<style>` blocks including their content. -/
def stripScriptStyle (s : Str) : Str := sssF s.length s

/-- State machine equivalent of `re.sub(r"<[^>]+>", "", html)`: drop every
maximal `<`…`>` segment with at least one character between the brackets;
a `<` with no later `>` (or immediately followed by `>`) is kept.  The
buffer holds a pending candidate tag in reverse. -/
def dropTagsGo : Option Str → Str → Str
  | none, [] => []
  | none, c :: rest =>
    if c = '<' then dropTagsGo (some ['<']) rest else c :: dropTagsGo none rest
  | some buf, [] => buf.reverse
  | some buf, c :: rest =>
    if c = '>' then
      if 2 ≤ buf.length then dropTagsGo none rest
      else buf.reverse ++ '>' :: dropTagsGo none rest
    else dropTagsGo (some (c :: buf)) rest

/-- Strip HTML tags. -/
def dropTags (s : Str) : Str := dropTagsGo none s

/-- Fueled worker for `pyReplace` (leftmost, non-overlapping). -/
def pyReplaceF : Nat → Str → Str → Str → Str
  | 0, _, _, s => s
  | f + 1, pat, rep, s =>
    if pat ≠ [] ∧ pat.isPrefixOf s then rep ++ pyReplaceF f pat rep (s.drop pat.length)
    else match s with
      | [] => []
      | c :: rest => c :: pyReplaceF f pat rep rest

/-- Python `str.replace(pat, rep)` for non-empty `pat`. -/
def pyReplace (pat rep s : Str) : Str := pyReplaceF s.length pat rep s

/-- Worker for `collapseWsRe`; the flag records whether the previous
character was inside a whitespace run. -/
def collapseWsGo : Bool → Str → Str
  | _, [] => []
  | inRun, c :: rest =>
    if pyIsSpace c then
      if inRun then collapseWsGo true rest else ' ' :: collapseWsGo true rest
    else c :: collapseWsGo false rest

/-- `re.sub(r"\s+", " ", text)`: collapse whitespace runs to one space. -/
def collapseWsRe (s : Str) : Str := collapseWsGo false s

/-- `_html_to_text`: script/style removal, tag stripping, entity
unescaping (fixed whitelist, in source order), whitespace collapsing,
final strip. -/
def html_to_text (html : Str) : Str :=
  let t1 := dropTags (stripScriptStyle html)
  let t2 := pyReplace (ts ("&nbsp;")) [' '] t1
  let t3 := pyReplace (ts ("&amp;")) ['&'] t2
  let t4 := pyReplace (ts ("&lt;")) ['<'] t3
  let t5 := pyReplace (ts ("&gt;")) ['>'] t4
  let t6 := pyReplace (ts ("&quot;")) ['"'] t5
  let t7 := pyReplace (ts ("&#39;")) [aposC] t6
  pyStrip (collapseWsRe t7)

/-! ## Base64url and UTF-8 decoding (`_decode_base64`)

Model of `base64.urlsafe_b64decode` followed by
`bytes.decode("utf-8", errors="ignore")`: well-formed base64url input
decodes to its bytes; input with characters outside the alphabet or with
bad padding yields `none` (modelling `binascii.Error`, which the source
converts to the empty string). -/

/-- Value of one base64 character, in both the standard and the urlsafe
alphabet (`urlsafe_b64decode` translates `-`→`+` and `_`→`/`). -/
def b64Val (c : Char) : Option Nat :=
  if 'A' ≤ c ∧ c ≤ 'Z' then some (c.toNat - 65)
  else if 'a' ≤ c ∧ c ≤ 'z' then some (c.toNat - 97 + 26)
  else if '0' ≤ c ∧ c ≤ '9' then some (c.toNat - 48 + 52)
  else if c = '+' ∨ c = '-' then some 62
  else if c = '/' ∨ c = '_' then some 63
  else none

/-- Strip trailing `=` padding. -/
def b64Core (s : Str) : Str := (s.reverse.dropWhile (fun c => c = '=')).reverse

/-- Decode a list of 6-bit values into bytes (4 values to 3 bytes, with
the standard truncation for a final group of 2 or 3 values). -/
def b64Bytes : List Nat → List Nat
  | a :: b :: c :: d :: rest =>
    (a * 4 + b / 16) :: ((b % 16) * 16 + c / 4) :: ((c % 4) * 64 + d) :: b64Bytes rest
  | [a, b] => [a * 4 + b / 16]
  | [a, b, c] => [a * 4 + b / 16, (b % 16) * 16 + c / 4]
  | _ => []

/-- `base64.urlsafe_b64decode` after the source's own padding fix-up. -/
def b64urlDecode (data : Str) : Option (List Nat) :=
  let missing := data.length % 4
  let padded := data ++ List.replicate (if missing = 0 then 0 else 4 - missing) '='
  let core := b64Core padded
  let eqn := padded.length - core.length
  if eqn ≤ 2 ∧ padded.length % 4 = 0 ∧ core.all (fun c => (b64Val c).isSome) then
    some (b64Bytes (core.filterMap b64Val))
  else none

/-- Is a byte a UTF-8 continuation byte? -/
def contOk (b : Nat) : Bool := 128 ≤ b && b ≤ 191

/-- Fueled worker for UTF-8 decoding with `errors="ignore"`: invalid
bytes are skipped; each step consumes at least one byte. -/
def utf8GoF : Nat → List Nat → Str
  | 0, _ => []
  | _ + 1, [] => []
  | f + 1, b :: rest =>
    if b ≤ 127 then Char.ofNat b :: utf8GoF f rest
    else if 194 ≤ b ∧ b ≤ 223 then
      match rest with
      | b2 :: rest2 =>
        if contOk b2 then Char.ofNat ((b - 192) * 64 + (b2 - 128)) :: utf8GoF f rest2
        else utf8GoF f rest
      | [] => []
    else if 224 ≤ b ∧ b ≤ 239 then
      match rest with
      | b2 :: b3 :: rest2 =>
        if (contOk b2 && contOk b3) && (b ≠ 224 || 160 ≤ b2) && (b ≠ 237 || b2 ≤ 159) then
          Char.ofNat ((b - 224) * 4096 + (b2 - 128) * 64 + (b3 - 128)) :: utf8GoF f rest2
        else utf8GoF f rest
      | _ => []
    else if 240 ≤ b ∧ b ≤ 244 then
      match rest with
      | b2 :: b3 :: b4 :: rest2 =>
        if (contOk b2 && contOk b3 && contOk b4) && (b ≠ 240 || 144 ≤ b2)
            && (b ≠ 244 || b2 ≤ 143) then
          Char.ofNat ((b - 240) * 262144 + (b2 - 128) * 4096 + (b3 - 128) * 64
            + (b4 - 128)) :: utf8GoF f rest2
        else utf8GoF f rest
      | _ => []
    else utf8GoF f rest

/-- UTF-8 decoding with `errors="ignore"`. -/
def utf8DecodeIgnore (bs : List Nat) : Str := utf8GoF bs.length bs

/-- `_decode_base64`: empty input gives `""`; decode errors give `""`. -/
def decode_base64 (data : Str) : Str :=
  if data.isEmpty then []
  else match b64urlDecode data with
    | some bytes => utf8DecodeIgnore bytes
    | none => []

/-! ## The Gmail payload part tree

`RawMessage` part trees as passed to `_extract_body_from_payload` and
`_extract_attachments`.  Each node carries the dictionary fields the
source reads: `mimeType`, `filename`, `body.attachmentId`, `body.size`,
`body.data` and `parts`.  `none` models an absent key (or `None` value).
The child list is its own inductive so that all tree functions are
structurally recursive. -/

mutual

inductive GPart where
  | mk (mimeType : Option Str) (filename : Option Str) (attachmentId : Option Str)
      (size : Option Int) (dataB64 : Option Str) (children : GPartL)

inductive GPartL where
  | nil
  | cons (p : GPart) (rest : GPartL)

end

/-- The `mimeType` field. -/
def mimeOf : GPart → Option Str
  | .mk mt _ _ _ _ _ => mt

/-- The `filename` field. -/
def fnOf : GPart → Option Str
  | .mk _ fn _ _ _ _ => fn

/-- The `body.attachmentId` field. -/
def aidOf : GPart → Option Str
  | .mk _ _ aid _ _ _ => aid

/-- The `body.size` field. -/
def szOf : GPart → Option Int
  | .mk _ _ _ sz _ _ => sz

/-- The `body.data` field. -/
def dataOf : GPart → Option Str
  | .mk _ _ _ _ d _ => d

/-- The `parts` field. -/
def childrenOf : GPart → GPartL
  | .mk _ _ _ _ _ ch => ch

/-- Attachment metadata record produced by `_extract_attachments`. -/
structure Att where
  filename : Str
  mimeType : Str
  size : Int
  attachmentId : Str
deriving DecidableEq

/-- The attachment test of the source walk: `if attachment_id and filename`
(Python truthiness: present and non-empty for both). -/
def attTest (p : GPart) : Bool :=
  ((aidOf p).getD []) ≠ [] && ((fnOf p).getD []) ≠ []

/-- The metadata record appended for a qualifying part, with the source's
defaults for unreported MIME type and size. -/
def attRecord (p : GPart) : Att :=
  { filename := (fnOf p).getD []
    mimeType := (mimeOf p).getD (ts ("application/octet-stream"))
    size := (szOf p).getD 0
    attachmentId := (aidOf p).getD [] }

mutual

/-- `_extract_attachments`'s `walk`: the part itself first, then its
children in order. -/
def extractAttachmentsP : GPart → List Att
  | .mk mt fn aid sz d ch =>
    (if attTest (.mk mt fn aid sz d ch) then [attRecord (.mk mt fn aid sz d ch)]
     else []) ++ extractAttachmentsL ch

/-- `walk` over a child list. -/
def extractAttachmentsL : GPartL → List Att
  | .nil => []
  | .cons p rest => extractAttachmentsP p ++ extractAttachmentsL rest

end

/-- `_extract_attachments`. -/
def extract_attachments (payload : GPart) : List Att := extractAttachmentsP payload

mutual

/-- Depth-first pre-order part listing (the traversal order of both
source walks). -/
def preorderP : GPart → List GPart
  | .mk mt fn aid sz d ch => GPart.mk mt fn aid sz d ch :: preorderL ch

/-- Pre-order listing of a child list. -/
def preorderL : GPartL → List GPart
  | .nil => []
  | .cons p rest => preorderP p ++ preorderL rest

end

mutual

/-- `_extract_body_from_payload`'s `walk`: collect decoded `text/plain`
and `text/html` payloads (in traversal order). -/
def collectP : GPart → List Str × List Str
  | .mk mt _ _ _ d ch =>
    let mime := lowerStr (mt.getD [])
    let self : List Str × List Str :=
      match d with
      | some dat =>
        if dat ≠ [] then
          if mime = ts ("text/plain") then ([decode_base64 dat], [])
          else if mime = ts ("text/html") then ([], [decode_base64 dat])
          else ([], [])
        else ([], [])
      | none => ([], [])
    let rest := collectL ch
    (self.1 ++ rest.1, self.2 ++ rest.2)

/-- Collection over a child list. -/
def collectL : GPartL → List Str × List Str
  | .nil => ([], [])
  | .cons p rest =>
    let a := collectP p
    let b := collectL rest
    (a.1 ++ b.1, a.2 ++ b.2)

end

/-- `_extract_body_from_payload`: prefer joined plain parts, fall back to
HTML parts converted by `html_to_text`, else the empty string. -/
def extract_body_from_payload (payload : GPart) : Str :=
  let c := collectP payload
  if c.1 ≠ [] then pyStrip (List.intercalate ['\n'] c.1)
  else if c.2 ≠ [] then pyStrip (List.intercalate ['\n'] (c.2.map html_to_text))
  else []

/-! ## The remote-classifier wire contract (`classify.py`,
`model-server/server_classify.py`)

`requests.post` and response parsing are modelled by an explicit
`HttpResult`: either the connection fails, or a response arrives with a
status code and an optional parsed JSON object (an association list;
`none` models a body that `response.json()` cannot parse).  Raising is
modelled by `Except.error`. -/

/-- Outcome of the HTTP POST to the remote classifier. -/
inductive HttpResult where
  | netFail
  | resp (status : Nat) (json : Option (List (Str × Int)))

/-- The Python exceptions the two callers can raise. -/
inductive PyErr where
  | connectionError
  | jsonDecodeError
  | keyError
  | apiFailure (status : Nat)
deriving DecidableEq

/-- `server_label` from `classify.py`: `response.json()["label"]` with no
error handling; prints the label and returns `None` on success. -/
def server_label (r : HttpResult) : Except PyErr (Option Int) :=
  match r with
  | .netFail => .error .connectionError
  | .resp _ none => .error .jsonDecodeError
  | .resp _ (some obj) =>
    match List.lookup (ts ("label")) obj with
    | none => .error .keyError
    | some _ => .ok none

/-- `classify_email` from `model-server/server_classify.py`: return the
label on HTTP 200, raise `Exception` otherwise; JSON or key errors also
raise. -/
def server_classify_email (r : HttpResult) : Except PyErr Int :=
  match r with
  | .netFail => .error .connectionError
  | .resp status j =>
    if status = 200 then
      match j with
      | none => .error .jsonDecodeError
      | some obj =>
        match List.lookup (ts ("label")) obj with
        | none => .error .keyError
        | some v => .ok v
    else .error (.apiFailure status)

/-- An HTTP outcome on which the spec's wire contract mandates the
fallback classification: network failure or malformed JSON body. -/
def failureOutcome (r : HttpResult) : Prop :=
  r = .netFail ∨ ∃ s, r = .resp s none

/-! ## Spec-side definitions and proof-support functions -/

/-- Does a decoded HTML part, after script/style removal and tag
stripping, leave no angle bracket and no entity ampersand behind?  This
is the condition under which the HTML Reducer's unescaping step cannot
reintroduce `<`/`>` into the output. -/
def tagResidueClean (h : Str) : Bool :=
  let t := dropTags (stripScriptStyle h)
  decide ('<' ∉ t) && decide ('>' ∉ t) && decide ('&' ∉ t)

/-- The attachment-selection function stated by the specification: a part
is included exactly when it carries a non-empty filename and a non-empty
attachment content handle, and its record defaults size to 0 and MIME
type to the generic binary type when unreported. -/
def attSel (q : GPart) : Option Att :=
  if ((fnOf q).getD []) ≠ [] ∧ ((aidOf q).getD []) ≠ [] then some (attRecord q)
  else none

/-- The specification's description of the Attachment Extractor: filter
the depth-first pre-order part listing through `attSel`. -/
def attachmentsSpec (payload : GPart) : List Att :=
  (preorderP payload).filterMap attSel

/-- What Python `str.strip` does to the leading end of a joined line
list: drop entirely-whitespace leading lines, then left-strip the first
surviving line. -/
def lstripLines (ls : List Str) : List Str :=
  match ls.dropWhile isBlankLine with
  | [] => []
  | l :: rest => pyLstrip l :: rest

/-- Apply `f` to the last element of a list. -/
def modifyLast (f : Str → Str) : List Str → List Str
  | [] => []
  | [l] => [f l]
  | l :: rest => l :: modifyLast f rest

/-- The line-level effect of `str.strip` on a newline-joined line list
whose last line is not blank: drop leading blank lines, left-strip the
first surviving line, right-strip the last. -/
def normLines (ls : List Str) : List Str :=
  modifyLast pyRstrip (lstripLines ls)

/-! # Theorems -/

/-- Splitting an all-whitespace string on whitespace yields no words. -/
theorem splitWsGo_allws (t : Str) (h : ∀ c ∈ t, pyIsSpace c = true) :
    splitWsGo t [] = [] := by
  induction t with
  | nil => rfl
  | cons c rest ih =>
    have hc : pyIsSpace c = true := h c (by simp)
    simp only [splitWsGo, hc, if_true, if_pos rfl]
    exact ih (fun d hd => h d (by simp [hd]))

/-- Whitespace collapsing sends all-whitespace input to the empty string. -/
theorem collapse_allws (t : Str) (h : ∀ c ∈ t, pyIsSpace c = true) :
    collapse t = [] := by
  unfold collapse pySplitWs
  rw [splitWsGo_allws t h]
  rfl

/-- `analyze_subject` rewriting under a failed subject search. -/
theorem analyze_subject_of_none {text : Str} (h : findSubjectGroup text = none) :
    analyze_subject text = (0, []) := by
  unfold analyze_subject
  rw [h]

/-- The running score on the empty (collapsed) text is 0. -/
theorem scoreParts_nil : scoreParts [] = 0 := by
  unfold scoreParts weakBizTerm weakCasTerm
  rw [analyze_subject_of_none (by decide),
    (show (hitsOf STRONG_BUSINESS []).length = 0 from by decide),
    (show (hitsOf MEDIUM_BUSINESS []).length = 0 from by decide),
    (show (hitsOf STRONG_CASUAL []).length = 0 from by decide),
    (show (hitsOf MEDIUM_CASUAL []).length = 0 from by decide),
    (show weakBizCount [] = 0 from by decide),
    (show weakCasCount [] = 0 from by decide)]
  norm_num

/-- The final score on the empty (collapsed) text is 0. -/
theorem finalScoreText_nil : finalScoreText [] = 0 := by
  unfold finalScoreText shortBoost
  rw [scoreParts_nil, decide_eq_false (lt_irrefl (0 : ℚ))]
  simp

/-- No pattern messages are emitted on the empty (collapsed) text. -/
theorem matchedList_nil : matchedList [] = [] := by
  unfold matchedList shortBoost
  rw [scoreParts_nil, analyze_subject_of_none (by decide),
    decide_eq_false (lt_irrefl (0 : ℚ)),
    (show hitsOf STRONG_BUSINESS [] = [] from by decide),
    (show hitsOf MEDIUM_BUSINESS [] = [] from by decide),
    (show hitsOf STRONG_CASUAL [] = [] from by decide),
    (show hitsOf MEDIUM_CASUAL [] = [] from by decide),
    (show weakBizCount [] = 0 from by decide),
    (show weakCasCount [] = 0 from by decide)]
  simp

/-- The tuple `classify_email` builds over the empty collapsed text. -/
theorem classify_core_nil :
    ((decide (0 < finalScoreText []) : Bool),
      (min (|finalScoreText []| / 5) 1 : ℚ), matchedList [])
    = ((false : Bool), (0 : ℚ), ([] : List Str)) := by
  rw [finalScoreText_nil, matchedList_nil, decide_eq_false (lt_irrefl (0 : ℚ))]
  norm_num

/-- Claim C1 (amended): on empty input — and on any input consisting only
of whitespace — `classify_email` returns the label **business**
(`is_casual = false`) with confidence 0.0 and an empty matched-pattern
list, and (being a total function) never raises. -/
theorem c1_whitespace_input (t : Str) (h : ∀ c ∈ t, pyIsSpace c = true) :
    classify_email t = (false, 0, []) := by
  have hc : collapse t = [] := collapse_allws t h
  simp only [classify_email, hc]
  exact classify_core_nil

/-- Witness for C1 at the concrete whitespace-only input `" \t"`. -/
theorem c1_whitespace_witness :
    (∀ c ∈ ts (" \t"), pyIsSpace c = true) ∧ classify_email (ts (" \t")) = (false, 0, []) :=
  ⟨by decide, c1_whitespace_input (ts (" \t")) (by decide)⟩

/-- Claim C1 counterexample: on the empty string the engine returns
`is_casual = false` — the label business, not personal as claimed (the
confidence 0.0 and empty match list parts of the claim do hold). -/
theorem c1_counterexample :
    (classify_email (ts (""))).1 = false
    ∧ (classify_email (ts (""))).2.1 = 0
    ∧ (classify_email (ts (""))).2.2 = [] := by
  have h : classify_email (ts ("")) = (false, 0, []) := by
    simp only [classify_email, (show collapse (ts ("")) = [] from by decide)]
    exact classify_core_nil
  rw [h]
  exact ⟨rfl, rfl, rfl⟩

/-- Claim C3 (amended): the two weak tiers are asymmetric: the weak
casual tier contributes only once at least two weak casual patterns
match (contributing 0.5 per match), but the weak business tier
contributes its 0.5 weight per match already from the first match
(`weak_biz_count >= 1`). -/
theorem c3_weak_tier_thresholds (text : Str) :
    weakBizTerm text = -((1 : ℚ)/2 * weakBizCount text)
    ∧ (weakCasCount text = 1 → weakCasTerm text = 0)
    ∧ (2 ≤ weakCasCount text → weakCasTerm text = (1 : ℚ)/2 * weakCasCount text) := by
  refine ⟨?_, ?_, ?_⟩
  · unfold weakBizTerm
    by_cases h : 1 ≤ weakBizCount text
    · rw [if_pos h]
    · rw [if_neg h]
      have h0 : weakBizCount text = 0 := by omega
      rw [h0]
      norm_num
  · intro h
    unfold weakCasTerm
    rw [if_neg (by omega)]
  · intro h
    unfold weakCasTerm
    rw [if_pos h]

/-- Witness for C3 at `"hello"`, where exactly one weak casual pattern
matches and the weak casual tier contributes nothing. -/
theorem c3_weak_tier_witness :
    weakCasCount (ts ("hello")) = 1 ∧ weakCasTerm (ts ("hello")) = 0 :=
  ⟨by decide, (c3_weak_tier_thresholds (ts ("hello"))).2.1 (by decide)⟩

/-- The running score on the collapsed text of `"regards"` is -0.5:
only a single weak business pattern fires. -/
theorem scoreParts_regards : scoreParts (collapse (ts ("regards"))) = -((1 : ℚ)/2) := by
  unfold scoreParts weakBizTerm weakCasTerm
  rw [analyze_subject_of_none (by decide),
    (show (hitsOf STRONG_BUSINESS (collapse (ts ("regards")))).length = 0 from by decide),
    (show (hitsOf MEDIUM_BUSINESS (collapse (ts ("regards")))).length = 0 from by decide),
    (show (hitsOf STRONG_CASUAL (collapse (ts ("regards")))).length = 0 from by decide),
    (show (hitsOf MEDIUM_CASUAL (collapse (ts ("regards")))).length = 0 from by decide),
    (show weakBizCount (collapse (ts ("regards"))) = 1 from by decide),
    (show weakCasCount (collapse (ts ("regards"))) = 0 from by decide)]
  norm_num

/-- The short-message boost does not fire on `"regards"` (the score is
already negative). -/
theorem shortBoost_regards : shortBoost (collapse (ts ("regards"))) = false := by
  unfold shortBoost
  rw [scoreParts_regards, decide_eq_false (by norm_num : ¬(0 : ℚ) < -((1 : ℚ)/2))]
  simp

/-- Claim C3 counterexample: on `"regards"` exactly one weak business
pattern matches and no other rule fires, yet the score is -0.5 (so the
confidence is 0.1, not 0): a single weak business match does contribute. -/
theorem c3_counterexample :
    weakBizCount (collapse (ts ("regards"))) = 1
    ∧ classify_email (ts ("regards"))
        = (false, (1 : ℚ)/10, [ts ("BIZ_WEAK: 1 patterns")]) := by
  refine ⟨by decide, ?_⟩
  have hscore : finalScoreText (collapse (ts ("regards"))) = -((1 : ℚ)/2) := by
    unfold finalScoreText
    rw [scoreParts_regards, shortBoost_regards]
    norm_num
  have hmatch : matchedList (collapse (ts ("regards"))) = [ts ("BIZ_WEAK: 1 patterns")] := by
    unfold matchedList
    rw [analyze_subject_of_none (by decide), shortBoost_regards,
      (show hitsOf STRONG_BUSINESS (collapse (ts ("regards"))) = [] from by decide),
      (show hitsOf MEDIUM_BUSINESS (collapse (ts ("regards"))) = [] from by decide),
      (show hitsOf STRONG_CASUAL (collapse (ts ("regards"))) = [] from by decide),
      (show hitsOf MEDIUM_CASUAL (collapse (ts ("regards"))) = [] from by decide),
      (show weakBizCount (collapse (ts ("regards"))) = 1 from by decide),
      (show weakCasCount (collapse (ts ("regards"))) = 0 from by decide)]
    simp
    decide
  simp only [classify_email]
  rw [hscore, hmatch, decide_eq_false (by norm_num : ¬(0 : ℚ) < -((1 : ℚ)/2)),
    (show |(-((1 : ℚ)/2))| = (1 : ℚ)/2 from by norm_num),
    min_eq_left (by norm_num : (1 : ℚ)/2/5 ≤ 1)]
  norm_num

/-- Claim C5 (confirmed): the engine labels the text personal (casual)
exactly when the final score is strictly positive, a score of exactly 0
yields business, and the confidence is `min(|score| / 5.0, 1.0)`, which
always lies in `[0, 1]`. -/
theorem c5_decision_and_confidence (email_text : Str) :
    ((classify_email email_text).1 = true ↔ 0 < finalScore email_text)
    ∧ (finalScore email_text = 0 → (classify_email email_text).1 = false)
    ∧ (classify_email email_text).2.1 = min (|finalScore email_text| / 5) 1
    ∧ 0 ≤ (classify_email email_text).2.1
    ∧ (classify_email email_text).2.1 ≤ 1 := by
  refine ⟨?_, ?_, ?_, ?_, ?_⟩
  · simp [classify_email, finalScore]
  · intro h
    have h2 : finalScoreText (collapse email_text) = 0 := h
    simp [classify_email, h2]
  · rfl
  · show (0 : ℚ) ≤ min (|finalScore email_text| / 5) 1
    exact le_min (div_nonneg (abs_nonneg _) (by norm_num)) zero_le_one
  · show min (|finalScore email_text| / 5) 1 ≤ 1
    exact min_le_right _ _

/-- The final score of the empty string is 0. -/
theorem finalScore_empty : finalScore (ts ("")) = 0 := by
  unfold finalScore
  rw [(show collapse (ts ("")) = [] from by decide)]
  exact finalScoreText_nil

/-- Witness for C5 at the empty string, whose final score is exactly 0
and whose label is therefore business. -/
theorem c5_witness :
    finalScore (ts ("")) = 0 ∧ (classify_email (ts (""))).1 = false :=
  ⟨finalScore_empty, (c5_decision_and_confidence (ts (""))).2.1 finalScore_empty⟩

/-- Claim C8 (amended): in the code as written, a network failure or a
malformed JSON response makes both remote-classification callers raise
(propagate an exception); no fallback `{label: 0, confidence: 0.5}` is
substituted anywhere. -/
theorem c8_failure_propagates (r : HttpResult) (h : failureOutcome r) :
    (∃ e, server_label r = Except.error e)
    ∧ (∃ e, server_classify_email r = Except.error e) := by
  rcases h with rfl | ⟨s, rfl⟩
  · exact ⟨⟨PyErr.connectionError, rfl⟩, ⟨PyErr.connectionError, rfl⟩⟩
  · refine ⟨⟨PyErr.jsonDecodeError, rfl⟩, ?_⟩
    by_cases hs : s = 200
    · subst hs
      exact ⟨PyErr.jsonDecodeError, rfl⟩
    · exact ⟨PyErr.apiFailure s, by simp [server_classify_email, hs]⟩

/-- Witness for C8 at the concrete network-failure outcome. -/
theorem c8_failure_witness :
    failureOutcome HttpResult.netFail
    ∧ (∃ e, server_label HttpResult.netFail = Except.error e) :=
  ⟨Or.inl rfl, (c8_failure_propagates HttpResult.netFail (Or.inl rfl)).1⟩

/-- Claim C8 counterexample: on network failure and on malformed JSON the
callers raise instead of substituting the fallback classification. -/
theorem c8_counterexample :
    server_label HttpResult.netFail = Except.error PyErr.connectionError
    ∧ server_label (HttpResult.resp 200 none) = Except.error PyErr.jsonDecodeError
    ∧ server_classify_email HttpResult.netFail = Except.error PyErr.connectionError :=
  ⟨rfl, rfl, rfl⟩

/-- Zipping a list with its own image under `map` pairs each element with
its image. -/
theorem zip_map_pair {α β : Type} (f : α → β) :
    ∀ (m : List α) (p : α × β), p ∈ m.zip (m.map f) → p.2 = f p.1 := by
  intro m
  induction m with
  | nil => intro p hp; simp at hp
  | cons a t ih =>
    intro p hp
    rw [List.map_cons, List.zip_cons_cons] at hp
    rcases List.mem_cons.mp hp with h | h
    · rw [h]
    · exact ih p h

/-- Claim C4 (confirmed): the Reclassification Pass preserves keys and
order, never touches an entry whose input label is 0 (personal/casual),
flips a business (1) entry to 0 exactly when the engine labels its text
casual with confidence at or above the threshold, and consequently any
changed entry went from business to personal. -/
theorem c4_one_way (m : List (Str × Int)) (th : ℚ) :
    (reclassify_dataset m th).length = m.length
    ∧ ∀ p ∈ m.zip (reclassify_dataset m th),
        p.2.1 = p.1.1
        ∧ (p.1.2 = 0 → p.2 = p.1)
        ∧ (p.1.2 = 1 → (p.2.2 = 0 ↔
            ((classify_email p.1.1).1 = true ∧ th ≤ (classify_email p.1.1).2.1)))
        ∧ (p.2.2 ≠ p.1.2 → p.1.2 = 1 ∧ p.2.2 = 0) := by
  constructor
  · unfold reclassify_dataset
    exact List.length_map _ _
  · intro p hp
    unfold reclassify_dataset at hp
    have hpf := zip_map_pair _ m p hp
    by_cases h1 : p.1.2 = 1
    · rw [if_pos h1] at hpf
      by_cases h2 : (classify_email p.1.1).1 = true ∧ th ≤ (classify_email p.1.1).2.1
      · rw [if_pos h2] at hpf
        refine ⟨by rw [hpf], ?_, ?_, ?_⟩
        · intro h0
          exact absurd (h0 ▸ h1) (by decide)
        · intro _
          rw [hpf]
          exact ⟨fun _ => h2, fun _ => rfl⟩
        · intro _
          exact ⟨h1, by rw [hpf]⟩
      · rw [if_neg h2] at hpf
        refine ⟨by rw [hpf], fun _ => hpf, ?_, ?_⟩
        · intro _
          rw [hpf, h1]
          exact ⟨fun h => absurd h (by decide), fun h => absurd h h2⟩
        · intro hne
          exact absurd (by rw [hpf]) hne
    · rw [if_neg h1] at hpf
      refine ⟨by rw [hpf], fun _ => hpf, fun h => absurd h h1, ?_⟩
      · intro hne
        exact absurd (by rw [hpf]) hne

/-- Witness for C4: a single personal-labelled (0) entry is returned
untouched, and the output mapping has the input's length. -/
theorem c4_witness :
    (reclassify_dataset [(ts ("a"), (0 : Int))] 0).length = [(ts ("a"), (0 : Int))].length
    ∧ ((ts ("a"), (0 : Int)), (ts ("a"), (0 : Int))).2
        = ((ts ("a"), (0 : Int)), (ts ("a"), (0 : Int))).1 :=
  ⟨(c4_one_way [(ts ("a"), 0)] 0).1,
    ((c4_one_way [(ts ("a"), 0)] 0).2 _ (by decide)).2.1 rfl⟩

/-- If some line is a reply header and every line before it is a quoted
line, the collection loop keeps nothing. -/
theorem keepLines_nil_of (ls : List Str) :
    ∀ i, i < ls.length → looksLikeReplyHeader (ls.getD i []) = true →
      (∀ j < i, isQuoteLine (ls.getD j []) = true) → keepLines ls = [] := by
  induction ls with
  | nil => intro i hi _ _; exact absurd hi (by simp)
  | cons l t ih =>
    intro i hi hh hq
    cases i with
    | zero =>
      simp only [List.getD_cons_zero] at hh
      simp [keepLines, hh]
    | succ k =>
      have hq0 : isQuoteLine l = true := by
        have := hq 0 (by omega)
        simpa using this
      by_cases hhl : looksLikeReplyHeader l = true
      · simp [keepLines, hhl]
      · simp only [keepLines, hhl, if_false, hq0, if_true]
        exact ih k (by simpa using hi) (by simpa using hh)
          (fun j hj => by simpa using hq (j + 1) (by omega))

/-- Claim C7 (confirmed): whenever the lines before the first
reply-header line are all quoted lines, `strip_replies` returns the
empty string — in particular on the spec's example body. -/
theorem c7_fully_quoted (text : Str)
    (h : ∃ i, i < (pySplitlines text).length
      ∧ looksLikeReplyHeader ((pySplitlines text).getD i []) = true
      ∧ ∀ j < i, isQuoteLine ((pySplitlines text).getD j []) = true) :
    strip_replies text = [] := by
  obtain ⟨i, hi, hh, hq⟩ := h
  unfold strip_replies
  by_cases he : text.isEmpty
  · rw [if_pos he]
  · rw [if_neg he, keepLines_nil_of _ i hi hh hq]
    rfl

/-- Witness for C7 at the spec's concrete quoted-reply body. -/
theorem c7_witness :
    strip_replies (ts ("> old text\nOn Mon, X wrote:\nmore old text")) = [] :=
  c7_fully_quoted _ ⟨1, by decide, by decide, by decide⟩

/-- `intercalate` on a singleton. -/
theorem intercalate_single {α : Type} (s : List α) (a : List α) :
    List.intercalate s [a] = a := by
  simp [List.intercalate, List.intersperse]

/-- `intercalate` peeling one element off a list of at least two. -/
theorem intercalate_cons₂ {α : Type} (s a b : List α) (t : List (List α)) :
    List.intercalate s (a :: b :: t) = a ++ s ++ List.intercalate s (b :: t) := by
  simp [List.intercalate, List.intersperse_cons_cons, List.append_assoc]

/-- Every character of a word produced by the whitespace splitter is a
non-whitespace character. -/
theorem splitWsGo_words (s : Str) :
    ∀ acc, (∀ c ∈ acc, pyIsSpace c = false) →
      ∀ w ∈ splitWsGo s acc, ∀ c ∈ w, pyIsSpace c = false := by
  induction s with
  | nil =>
    intro acc hacc w hw c hc
    simp only [splitWsGo] at hw
    by_cases h : acc = []
    · simp [h] at hw
    · rw [if_neg h] at hw
      simp at hw
      exact hacc c (by simpa [hw] using hc)
  | cons a t ih =>
    intro acc hacc w hw c hc
    simp only [splitWsGo] at hw
    by_cases ha : pyIsSpace a
    · rw [if_pos ha] at hw
      by_cases h : acc = []
      · rw [if_pos h] at hw
        exact ih [] (by simp) w hw c hc
      · rw [if_neg h] at hw
        rcases List.mem_cons.mp hw with h1 | h1
        · exact hacc c (by simpa [h1] using hc)
        · exact ih [] (by simp) w h1 c hc
    · rw [if_neg ha] at hw
      refine ih (a :: acc) ?_ w hw c hc
      intro d hd
      rcases List.mem_cons.mp hd with h1 | h1
      · rw [h1]
        exact eq_false_of_ne_true ha
      · exact hacc d h1

/-- Every character of a collapsed text is either a single space or a
non-whitespace character. -/
theorem collapse_chars (s : Str) (c : Char) (h : c ∈ collapse s) :
    c = ' ' ∨ pyIsSpace c = false := by
  have hwords : ∀ w ∈ pySplitWs s, ∀ d ∈ w, pyIsSpace d = false :=
    splitWsGo_words s [] (by simp)
  unfold collapse at h
  revert h hwords
  generalize pySplitWs s = ls
  induction ls with
  | nil => intro h _; simp [List.intercalate] at h
  | cons w t ih =>
    intro h hwords
    cases t with
    | nil =>
      rw [intercalate_single] at h
      exact Or.inr (hwords w (by simp) c h)
    | cons w2 t2 =>
      rw [intercalate_cons₂] at h
      rcases List.mem_append.mp h with h1 | h1
      · rcases List.mem_append.mp h1 with h2 | h2
        · exact Or.inr (hwords w (by simp) c h2)
        · exact Or.inl (by simpa using h2)
      · exact ih h1 (fun v hv d hd => hwords v (by simp [hv]) d hd)

/-- A collapsed text contains no newline. -/
theorem collapse_no_newline (s : Str) : '\n' ∉ collapse s := by
  intro h
  rcases collapse_chars s '\n' h with h1 | h1
  · exact absurd h1 (by decide)
  · exact absurd h1 (by decide)

/-- A successful case-insensitive prefix test bounds the string length. -/
theorem ciPre_length {pat s : Str} (h : ciPre pat s = true) : pat.length ≤ s.length := by
  unfold ciPre at h
  have he : lowerStr (s.take pat.length) = lowerStr pat := by
    exact beq_iff_eq.mp h
  have hl : (lowerStr (s.take pat.length)).length = (lowerStr pat).length := by rw [he]
  simp only [lowerStr, List.length_map, List.length_take] at hl
  omega

/-- A successful case-insensitive prefix test gives the lower-cased
prefix equation. -/
theorem ciPre_eq {pat s : Str} (h : ciPre pat s = true) :
    lowerStr (s.take pat.length) = lowerStr pat := by
  unfold ciPre at h
  exact beq_iff_eq.mp h

/-- `takeWhile` keeps everything when the predicate holds throughout. -/
theorem takeWhile_of_all {α : Type} {p : α → Bool} :
    ∀ (l : List α), (∀ c ∈ l, p c = true) → l.takeWhile p = l := by
  intro l
  induction l with
  | nil => intro _; rfl
  | cons a t ih =>
    intro h
    rw [List.takeWhile_cons, if_pos (h a (by simp))]
    rw [ih (fun c hc => h c (by simp [hc]))]

/-- On a newline-free tail, `subjAfter` fails exactly on the empty tail,
and on success splits the tail into a whitespace run followed by a
non-empty capture that extends to the very end. -/
theorem subjAfter_cases (tail : Str) (hnl : '\n' ∉ tail) :
    (tail = [] ∧ subjAfter tail = none)
    ∨ ∃ ws g, subjAfter tail = some g ∧ tail = ws ++ g
        ∧ (∀ c ∈ ws, pyIsSpace c = true) ∧ g ≠ [] := by
  by_cases he : (tail.dropWhile pyIsSpace).isEmpty = true
  · have htail : tail.takeWhile pyIsSpace = tail := by
      have h := List.takeWhile_append_dropWhile (p := pyIsSpace) (l := tail)
      rw [List.isEmpty_iff.mp he, List.append_nil] at h
      exact h
    by_cases ht : tail = []
    · subst ht
      exact Or.inl ⟨rfl, rfl⟩
    · right
      have hallws : ∀ c ∈ tail, pyIsSpace c = true := by
        intro c hc
        exact List.mem_takeWhile_imp (htail ▸ hc)
    -- the reverse starts with a non-newline character
      obtain ⟨d, ds, hds⟩ := List.exists_cons_of_ne_nil (by simpa using ht :
        tail.reverse ≠ [])
      have hdmem : d ∈ tail := by
        have : d ∈ tail.reverse := by rw [hds]; simp
        simpa using this
      have hd : d ≠ '\n' := fun h0 => hnl (h0 ▸ hdmem)
      refine ⟨tail.take (tail.length - 1), tail.drop (tail.length - 1), ?_,
        (List.take_append_drop _ _).symm,
        fun c hc => hallws c (List.take_subset _ _ hc), ?_⟩
      · unfold subjAfter
        rw [if_pos he, htail, hds, List.findIdx?_cons]
        rw [if_pos (by simpa using hd)]
        simp only [Nat.sub_zero]
        rw [takeWhile_of_all _ (fun c hc => by
          simp only [decide_eq_true_eq]
          intro h0
          exact hnl (h0 ▸ List.drop_subset _ _ hc))]
      · have hlen : (tail.drop (tail.length - 1)).length = 1 := by
          rw [List.length_drop]
          have : 0 < tail.length := List.length_pos.mpr ht
          omega
        intro h0
        rw [h0] at hlen
        simp at hlen
  · right
    refine ⟨tail.takeWhile pyIsSpace, tail.dropWhile pyIsSpace, ?_,
      (List.takeWhile_append_dropWhile _ _).symm,
      fun c hc => List.mem_takeWhile_imp hc, by simpa using he⟩
    unfold subjAfter
    rw [if_neg he]
    rw [takeWhile_of_all _ (fun c hc => by
      simp only [decide_eq_true_eq]
      intro h0
      exact hnl (h0 ▸ List.dropWhile_subset _ hc))]

/-- The scan lemma for the subject regex: in a newline-free string, a
successful search returns as capture group 1 everything from the first
`subject:` marker (after the whitespace run) to the very end. -/
theorem fsg_decomp : ∀ (s : Str), '\n' ∉ s → ∀ g, findSubjectGroup s = some g →
    ∃ pre sub ws, s = pre ++ sub ++ ws ++ g
      ∧ lowerStr sub = ts ("subject:")
      ∧ (∀ c ∈ ws, pyIsSpace c = true)
      ∧ g ≠ []
      ∧ ∀ p < pre.length, ciPre subjMarker (s.drop p) = false := by
  intro s
  induction s with
  | nil => intro _ g hg; exact absurd hg (by simp [findSubjectGroup])
  | cons c rest ih =>
    intro hnl g hg
    have hnlr : '\n' ∉ rest := fun h => hnl (by simp [h])
    simp only [findSubjectGroup] at hg
    by_cases hci : ciPre subjMarker (c :: rest) = true
    · rw [if_pos hci] at hg
      have hnlt : '\n' ∉ (c :: rest).drop 8 := fun h => hnl (List.drop_subset _ _ h)
      rcases subjAfter_cases _ hnlt with ⟨htl, hnone⟩ | ⟨ws, g0, hsome, hdec, hws, hg0⟩
      · exfalso
        rw [hnone] at hg
        obtain ⟨pre, sub, ws2, hdec, hsub, _, hgne, _⟩ := ih hnlr g hg
        have hm8 : subjMarker.length = 8 := rfl
        have hlen8 : (8 : Nat) ≤ (c :: rest).length := hm8 ▸ ciPre_length hci
        have htl8 : (c :: rest).length - 8 = 0 := by
          have := congrArg List.length htl
          simpa [List.length_drop] using this
        have hsl : sub.length = 8 := by
          have h1 := congrArg List.length hsub
          simp only [lowerStr, List.length_map] at h1
          exact h1.trans rfl
        have h2 := congrArg List.length hdec
        simp only [List.length_append] at h2
        have hgl : 1 ≤ g.length := List.length_pos.mpr hgne
        simp only [List.length_cons] at hlen8 htl8
        omega
      · rw [hsome] at hg
        have hgg : g = g0 := by
          simpa using hg.symm
        subst hgg
        refine ⟨[], (c :: rest).take 8, ws, ?_, ?_, hws, hg0, ?_⟩
        · rw [List.nil_append, List.append_assoc, ← hdec]
          exact (List.take_append_drop 8 (c :: rest)).symm
        · have h1 := ciPre_eq hci
          have hm8 : subjMarker.length = 8 := rfl
          rw [hm8] at h1
          rw [h1]
          rfl
        · intro p hp
          simp at hp
    · rw [if_neg hci] at hg
      obtain ⟨pre, sub, ws, hdec, hsub, hws, hgne, hpre⟩ := ih hnlr g hg
      refine ⟨c :: pre, sub, ws, ?_, hsub, hws, hgne, ?_⟩
      · simp only [List.append_assoc] at hdec ⊢
        rw [List.cons_append, ← hdec]
      intro p hp
      cases p with
      | zero =>
        simpa using eq_false_of_ne_true hci
      | succ q =>
        have hq : q < pre.length := by simpa using hp
        simpa using hpre q hq

/-- If a `subject:` marker occurs with at least one character after it,
the subject search succeeds (on newline-free text). -/
theorem fsg_some_of_marker : ∀ (s : Str), '\n' ∉ s →
    ∀ p, ciPre subjMarker (s.drop p) = true → p + 8 < s.length →
    (findSubjectGroup s).isSome = true := by
  intro s
  induction s with
  | nil => intro _ p _ hlen; simp at hlen
  | cons c rest ih =>
    intro hnl p hp hlen
    have hnlr : '\n' ∉ rest := fun h => hnl (by simp [h])
    simp only [findSubjectGroup]
    by_cases hci : ciPre subjMarker (c :: rest) = true
    · rw [if_pos hci]
      have hnlt : '\n' ∉ (c :: rest).drop 8 := fun h => hnl (List.drop_subset _ _ h)
      rcases subjAfter_cases _ hnlt with ⟨htl, hnone⟩ | ⟨ws, g0, hsome, _, _, _⟩
      · exfalso
        have htl8 : (c :: rest).length - 8 = 0 := by
          have := congrArg List.length htl
          simpa [List.length_drop] using this
        omega
      · rw [hsome]
        rfl
    · rw [if_neg hci]
      cases p with
      | zero => exact absurd (by simpa using hp) hci
      | succ q =>
        have hlen2 : q + 1 + 8 < rest.length + 1 := by simpa using hlen
        exact ih hnlr q (by simpa using hp) (by omega)

/-- Claim C10 (confirmed): because `classify_email` collapses all
whitespace (including newlines) before subject analysis, the subject
regex captures everything from the first `subject:` marker to the end of
the entire normalized text — body included — and the forward-marker
count and both subject keyword rules are evaluated over that whole
remaining text; moreover the search succeeds whenever a marker occurs
with at least one character after it. -/
theorem c10_subject_spans_to_end (input : Str) :
    ((∃ p, ciPre subjMarker ((collapse input).drop p) = true
        ∧ p + 8 < (collapse input).length) →
      (findSubjectGroup (collapse input)).isSome = true)
    ∧ ∀ g, findSubjectGroup (collapse input) = some g →
      ∃ pre sub ws, collapse input = pre ++ sub ++ ws ++ g
        ∧ lowerStr sub = ts ("subject:")
        ∧ (∀ c ∈ ws, pyIsSpace c = true)
        ∧ g ≠ []
        ∧ (∀ p < pre.length, ciPre subjMarker ((collapse input).drop p) = false)
        ∧ analyze_subject (collapse input) = subjectRules g := by
  constructor
  · rintro ⟨p, hp, hlen⟩
    exact fsg_some_of_marker _ (collapse_no_newline input) p hp hlen
  · intro g hg
    obtain ⟨pre, sub, ws, h1, h2, h3, h4, h5⟩ :=
      fsg_decomp _ (collapse_no_newline input) g hg
    refine ⟨pre, sub, ws, h1, h2, h3, h4, h5, ?_⟩
    unfold analyze_subject
    rw [hg]

/-- Witness for C10: in `"Subject: hi\nbody meeting"` the capture spans
`"hi body meeting"`, i.e. it reaches past the original subject line into
the body. -/
theorem c10_witness :
    (findSubjectGroup (collapse (ts ("Subject: hi\nbody meeting")))).isSome = true
    ∧ ∃ pre sub ws, collapse (ts ("Subject: hi\nbody meeting"))
        = pre ++ sub ++ ws ++ ts ("hi body meeting")
      ∧ lowerStr sub = ts ("subject:")
      ∧ (∀ c ∈ ws, pyIsSpace c = true)
      ∧ ts ("hi body meeting") ≠ []
      ∧ (∀ p < pre.length,
          ciPre subjMarker ((collapse (ts ("Subject: hi\nbody meeting"))).drop p) = false)
      ∧ analyze_subject (collapse (ts ("Subject: hi\nbody meeting")))
          = subjectRules (ts ("hi body meeting")) :=
  ⟨(c10_subject_spans_to_end (ts ("Subject: hi\nbody meeting"))).1 ⟨0, by decide, by decide⟩,
    (c10_subject_spans_to_end (ts ("Subject: hi\nbody meeting"))).2
      (ts ("hi body meeting")) (by decide)⟩

mutual

/-- The attachment walk over a part equals filtering its pre-order part
listing through the spec's selection function. -/
theorem extractAttachmentsP_eq (p : GPart) :
    extractAttachmentsP p = (preorderP p).filterMap attSel := by
  cases p with
  | mk mt fn aid sz d ch =>
    rw [extractAttachmentsP, preorderP, extractAttachmentsL_eq ch]
    by_cases hfn : (fnOf (GPart.mk mt fn aid sz d ch)).getD [] = []
    · have h1 : attTest (GPart.mk mt fn aid sz d ch) = false := by
        simp [attTest, hfn]
      have h2 : attSel (GPart.mk mt fn aid sz d ch) = none := by
        simp [attSel, hfn]
      simp [List.filterMap_cons, h1, h2]
    · by_cases haid : (aidOf (GPart.mk mt fn aid sz d ch)).getD [] = []
      · have h1 : attTest (GPart.mk mt fn aid sz d ch) = false := by
          simp [attTest, haid]
        have h2 : attSel (GPart.mk mt fn aid sz d ch) = none := by
          simp [attSel, haid]
        simp [List.filterMap_cons, h1, h2]
      · have h1 : attTest (GPart.mk mt fn aid sz d ch) = true := by
          simp [attTest, hfn, haid]
        have h2 : attSel (GPart.mk mt fn aid sz d ch)
            = some (attRecord (GPart.mk mt fn aid sz d ch)) := by
          simp [attSel, hfn, haid]
        simp [List.filterMap_cons, h1, h2]

/-- The attachment walk over a child list equals filtering its pre-order
part listing through the spec's selection function. -/
theorem extractAttachmentsL_eq (l : GPartL) :
    extractAttachmentsL l = (preorderL l).filterMap attSel := by
  cases l with
  | nil => rfl
  | cons p rest =>
    rw [extractAttachmentsL, preorderL, List.filterMap_append,
      extractAttachmentsP_eq p, extractAttachmentsL_eq rest]

end

/-- Claim C9 (confirmed): for every part tree, `_extract_attachments`
includes a part exactly when it carries both a non-empty filename and a
non-empty attachment content handle in its body metadata (in depth-first
pre-order), and for every included part the size defaults to 0 and the
MIME type defaults to `application/octet-stream` when unreported. -/
theorem c9_attachment_selection (payload : GPart) :
    extract_attachments payload = attachmentsSpec payload
    ∧ ∀ q : GPart,
        (mimeOf q = none → (attRecord q).mimeType = ts ("application/octet-stream"))
        ∧ (szOf q = none → (attRecord q).size = 0) := by
  refine ⟨extractAttachmentsP_eq payload, ?_⟩
  intro q
  constructor
  · intro h
    simp [attRecord, h]
  · intro h
    simp [attRecord, h]

/-- Witness for C9 at a concrete two-part tree (one qualifying part, one
part without a content handle) and a concrete part with unreported MIME
type and size. -/
theorem c9_witness :
    extract_attachments (GPart.mk (some (ts ("multipart/mixed"))) none none none none
        (GPartL.cons (GPart.mk (some (ts ("application/pdf"))) (some (ts ("a.pdf")))
            (some (ts ("id1"))) (some 12) none GPartL.nil)
          (GPartL.cons (GPart.mk none (some (ts ("b.txt"))) none none none GPartL.nil)
            GPartL.nil)))
      = attachmentsSpec (GPart.mk (some (ts ("multipart/mixed"))) none none none none
        (GPartL.cons (GPart.mk (some (ts ("application/pdf"))) (some (ts ("a.pdf")))
            (some (ts ("id1"))) (some 12) none GPartL.nil)
          (GPartL.cons (GPart.mk none (some (ts ("b.txt"))) none none none GPartL.nil)
            GPartL.nil)))
    ∧ (attRecord (GPart.mk none (some (ts ("f"))) (some (ts ("id"))) none none
        GPartL.nil)).mimeType = ts ("application/octet-stream")
    ∧ (attRecord (GPart.mk none (some (ts ("f"))) (some (ts ("id"))) none none
        GPartL.nil)).size = 0 :=
  ⟨(c9_attachment_selection _).1,
    ((c9_attachment_selection (GPart.mk (some (ts ("multipart/mixed"))) none none none
        none GPartL.nil)).2 _).1 rfl,
    ((c9_attachment_selection (GPart.mk (some (ts ("multipart/mixed"))) none none none
        none GPartL.nil)).2 _).2 rfl⟩

/-- `pyReplaceF` is the identity when the pattern's first character does
not occur in the string. -/
theorem pyReplaceF_not_mem {a : Char} {pat : Str} (rep : Str)
    (hpat : pat.head? = some a) :
    ∀ (f : Nat) (s : Str), a ∉ s → pyReplaceF f pat rep s = s := by
  intro f
  induction f with
  | zero => intro s _; rfl
  | succ f ih =>
    intro s hs
    have hnp : ¬(pat ≠ [] ∧ pat.isPrefixOf s = true) := by
      rintro ⟨hne, hpre⟩
      cases pat with
      | nil => exact hne rfl
      | cons b bt =>
        have hb : b = a := by simpa using hpat
        cases s with
        | nil => simp [List.isPrefixOf] at hpre
        | cons c ct =>
          rw [List.isPrefixOf_cons₂] at hpre
          have hbc : b = c := by
            have := (Bool.and_eq_true _ _).mp hpre
            exact beq_iff_eq.mp this.1
          exact hs (by simp [← hbc, hb])
    cases s with
    | nil => simp only [pyReplaceF, if_neg hnp]
    | cons c ct =>
      have hct : a ∉ ct := fun h => hs (by simp [h])
      simp only [pyReplaceF, if_neg hnp]
      rw [ih ct hct]

/-- `pyReplace` is the identity when the pattern's first character does
not occur in the string. -/
theorem pyReplace_not_mem {a : Char} {pat : Str} (rep : Str) (s : Str)
    (hpat : pat.head? = some a) (hs : a ∉ s) : pyReplace pat rep s = s :=
  pyReplaceF_not_mem rep hpat s.length s hs

/-- Whitespace collapsing only produces spaces and characters of the
input. -/
theorem collapseWsGo_chars :
    ∀ (s : Str) (b : Bool) (c : Char), c ∈ collapseWsGo b s → c = ' ' ∨ c ∈ s := by
  intro s
  induction s with
  | nil => intro b c hc; simp [collapseWsGo] at hc
  | cons d t ih =>
    intro b c hc
    simp only [collapseWsGo] at hc
    by_cases hd : pyIsSpace d
    · rw [if_pos hd] at hc
      by_cases hb : b
      · rw [if_pos hb] at hc
        rcases ih true c hc with h | h
        · exact Or.inl h
        · exact Or.inr (by simp [h])
      · rw [if_neg hb] at hc
        rcases List.mem_cons.mp hc with h | h
        · exact Or.inl h
        · rcases ih true c h with h1 | h1
          · exact Or.inl h1
          · exact Or.inr (by simp [h1])
    · rw [if_neg hd] at hc
      rcases List.mem_cons.mp hc with h | h
      · exact Or.inr (by simp [h])
      · rcases ih false c h with h1 | h1
        · exact Or.inl h1
        · exact Or.inr (by simp [h1])

/-- Characters of a right-stripped string come from the original. -/
theorem pyRstrip_subset (s : Str) : pyRstrip s ⊆ s := by
  intro c hc
  unfold pyRstrip at hc
  have : c ∈ s.reverse.dropWhile pyIsSpace := by simpa using hc
  simpa using List.dropWhile_subset _ this

/-- Characters of a stripped string come from the original. -/
theorem pyStrip_subset (s : Str) : pyStrip s ⊆ s := by
  intro c hc
  unfold pyStrip at hc
  exact List.dropWhile_subset _ (pyRstrip_subset _ hc)

/-- Characters of an intercalation come from the separator or from one
of the chunks. -/
theorem intercalate_chars (sep : Str) :
    ∀ (ls : List Str) (c : Char), c ∈ List.intercalate sep ls →
      c ∈ sep ∨ ∃ l ∈ ls, c ∈ l := by
  intro ls
  induction ls with
  | nil => intro c hc; simp [List.intercalate] at hc
  | cons w t ih =>
    intro c hc
    cases t with
    | nil =>
      rw [intercalate_single] at hc
      exact Or.inr ⟨w, by simp, hc⟩
    | cons w2 t2 =>
      rw [intercalate_cons₂] at hc
      rcases List.mem_append.mp hc with h1 | h1
      · rcases List.mem_append.mp h1 with h2 | h2
        · exact Or.inr ⟨w, by simp, h2⟩
        · exact Or.inl h2
      · rcases ih c h1 with h2 | ⟨l, hl, hcl⟩
        · exact Or.inl h2
        · exact Or.inr ⟨l, by simp [hl], hcl⟩

/-- If the tag-stripped residue of an HTML part is free of brackets and
ampersands, the HTML Reducer's output contains no brackets. -/
theorem html_to_text_clean (h : Str) (hc : tagResidueClean h = true) :
    '<' ∉ html_to_text h ∧ '>' ∉ html_to_text h := by
  unfold tagResidueClean at hc
  simp only [Bool.and_eq_true, decide_eq_true_eq] at hc
  obtain ⟨⟨hlt, hgt⟩, hamp⟩ := hc
  simp only [html_to_text]
  rw [pyReplace_not_mem _ _ (by rfl) hamp,
    pyReplace_not_mem _ _ (by rfl) hamp,
    pyReplace_not_mem _ _ (by rfl) hamp,
    pyReplace_not_mem _ _ (by rfl) hamp,
    pyReplace_not_mem _ _ (by rfl) hamp,
    pyReplace_not_mem _ _ (by rfl) hamp]
  constructor
  · intro hin
    rcases collapseWsGo_chars _ false '<' (pyStrip_subset _ hin) with h1 | h1
    · exact absurd h1 (by decide)
    · exact hlt h1
  · intro hin
    rcases collapseWsGo_chars _ false '>' (pyStrip_subset _ hin) with h1 | h1
    · exact absurd h1 (by decide)
    · exact hgt h1

/-- Claim C2 (amended): for a payload whose textual parts are all HTML,
the Body Extractor's output contains no `<` and no `>` provided each
decoded HTML part, after script/style removal and tag stripping, leaves
no bracket and no ampersand behind; without that proviso the output can
contain brackets (escaped entities such as `&lt;` are unescaped back
into brackets, and stray brackets that do not form a complete tag
survive the tag stripper). -/
theorem c2_html_only_body (payload : GPart)
    (hplain : (collectP payload).1 = [])
    (hclean : ∀ h ∈ (collectP payload).2, tagResidueClean h = true) :
    '<' ∉ extract_body_from_payload payload
    ∧ '>' ∉ extract_body_from_payload payload := by
  simp only [extract_body_from_payload]
  rw [hplain, if_neg (by simp : ¬([] : List Str) ≠ [])]
  by_cases h2 : (collectP payload).2 = []
  · rw [if_neg (by simp [h2])]
    simp
  · rw [if_pos h2]
    constructor
    · intro hin
      rcases intercalate_chars _ _ '<' (pyStrip_subset _ hin) with h1 | ⟨l, hl, hcl⟩
      · exact absurd h1 (by decide)
      · obtain ⟨h0, hh0, hfh⟩ := List.mem_map.mp hl
        exact (html_to_text_clean h0 (hclean h0 hh0)).1 (hfh ▸ hcl)
    · intro hin
      rcases intercalate_chars _ _ '>' (pyStrip_subset _ hin) with h1 | ⟨l, hl, hcl⟩
      · exact absurd h1 (by decide)
      · obtain ⟨h0, hh0, hfh⟩ := List.mem_map.mp hl
        exact (html_to_text_clean h0 (hclean h0 hh0)).2 (hfh ▸ hcl)

/-- Witness for C2 at a multipart payload with a single clean HTML part
(base64url of an HTML fragment without entities or stray brackets). -/
theorem c2_witness :
    '<' ∉ extract_body_from_payload (GPart.mk (some (ts ("multipart/alternative")))
        none none none none (GPartL.cons (GPart.mk (some (ts ("text/html"))) none none
          none (some (ts ("PHA-b2s8L3A-"))) GPartL.nil) GPartL.nil))
    ∧ '>' ∉ extract_body_from_payload (GPart.mk (some (ts ("multipart/alternative")))
        none none none none (GPartL.cons (GPart.mk (some (ts ("text/html"))) none none
          none (some (ts ("PHA-b2s8L3A-"))) GPartL.nil) GPartL.nil)) :=
  c2_html_only_body _ (by decide) (by decide)

/-- Claim C2 counterexample: an HTML-only multipart payload whose part
decodes to `&lt;b&gt;` produces the body `<b>`, which contains both `<`
and `>`: the entity unescaping step reintroduces brackets. -/
theorem c2_counterexample :
    (collectP (GPart.mk (some (ts ("multipart/alternative"))) none none none none
        (GPartL.cons (GPart.mk (some (ts ("text/html"))) none none none
          (some (ts ("Jmx0O2ImZ3Q7"))) GPartL.nil) GPartL.nil))).1 = []
    ∧ extract_body_from_payload (GPart.mk (some (ts ("multipart/alternative"))) none
        none none none (GPartL.cons (GPart.mk (some (ts ("text/html"))) none none none
          (some (ts ("Jmx0O2ImZ3Q7"))) GPartL.nil) GPartL.nil)) = ts ("<b>") := by
  refine ⟨by decide, by decide⟩

/-- Dropping while a predicate holds skips any all-satisfying prefix. -/
theorem dropWhile_append_all {α : Type} {p : α → Bool} (w z : List α)
    (h : ∀ c ∈ w, p c = true) : List.dropWhile p (w ++ z) = List.dropWhile p z := by
  rw [List.dropWhile_append,
    if_pos (List.isEmpty_iff.mpr (List.dropWhile_eq_nil_iff.mpr h))]

/-- Dropping while a predicate holds stops inside a prefix that contains
a failing element. -/
theorem dropWhile_append_stop {α : Type} {p : α → Bool} (w z : List α)
    (h : List.dropWhile p w ≠ []) :
    List.dropWhile p (w ++ z) = List.dropWhile p w ++ z := by
  rw [List.dropWhile_append, if_neg (by simpa [List.isEmpty_iff] using h)]

/-- Taking while a predicate holds passes an all-satisfying prefix. -/
theorem takeWhile_append_all {α : Type} {p : α → Bool} (w z : List α)
    (h : ∀ c ∈ w, p c = true) :
    List.takeWhile p (w ++ z) = w ++ List.takeWhile p z := by
  rw [List.takeWhile_append, if_pos (by rw [takeWhile_of_all w h])]

/-- Taking while a predicate holds stops inside a prefix that contains a
failing element. -/
theorem takeWhile_append_stop {α : Type} {p : α → Bool} (w z : List α)
    (h : List.dropWhile p w ≠ []) :
    List.takeWhile p (w ++ z) = List.takeWhile p w := by
  rw [List.takeWhile_append, if_neg ?_]
  intro hlen
  apply h
  have h2 := congrArg List.length (List.takeWhile_append_dropWhile (p := p) (l := w))
  rw [List.length_append, hlen] at h2
  have h3 : (List.dropWhile p w).length = 0 := by omega
  exact List.length_eq_zero.mp h3

/-- The head surviving a `dropWhile` fails the predicate. -/
theorem dropWhile_head_false {α : Type} {p : α → Bool} :
    ∀ (l : List α) (c : α) (r : List α), List.dropWhile p l = c :: r → p c = false := by
  intro l
  induction l with
  | nil => intro c r h; simp at h
  | cons a t ih =>
    intro c r h
    rw [List.dropWhile_cons] at h
    by_cases ha : p a
    · rw [if_pos ha] at h
      exact ih c r h
    · rw [if_neg ha] at h
      cases h
      simpa using ha

/-- `dropWhile` is idempotent. -/
theorem dropWhile_idem {α : Type} {p : α → Bool} (l : List α) :
    List.dropWhile p (List.dropWhile p l) = List.dropWhile p l := by
  cases h : List.dropWhile p l with
  | nil => rfl
  | cons c r =>
    rw [List.dropWhile_cons, if_neg (by simp [dropWhile_head_false l c r h])]

/-- `lstrip` is idempotent. -/
theorem pyLstrip_idem (s : Str) : pyLstrip (pyLstrip s) = pyLstrip s :=
  dropWhile_idem s

/-- `rstrip` is idempotent. -/
theorem pyRstrip_idem (s : Str) : pyRstrip (pyRstrip s) = pyRstrip s := by
  unfold pyRstrip
  rw [List.reverse_reverse, dropWhile_idem]

/-- A string is an all-whitespace prefix followed by its `lstrip`. -/
theorem lstrip_decomp (s : Str) :
    ∃ w, s = w ++ pyLstrip s ∧ ∀ c ∈ w, pyIsSpace c = true :=
  ⟨s.takeWhile pyIsSpace, (List.takeWhile_append_dropWhile _ _).symm,
    fun _ hc => List.mem_takeWhile_imp hc⟩

/-- A string is its `rstrip` followed by an all-whitespace suffix. -/
theorem rstrip_decomp (s : Str) :
    ∃ w, s = pyRstrip s ++ w ∧ ∀ c ∈ w, pyIsSpace c = true := by
  refine ⟨(s.reverse.takeWhile pyIsSpace).reverse, ?_, ?_⟩
  · calc s = s.reverse.reverse := (List.reverse_reverse s).symm
    _ = (s.reverse.takeWhile pyIsSpace ++ s.reverse.dropWhile pyIsSpace).reverse := by
        rw [List.takeWhile_append_dropWhile]
    _ = (s.reverse.dropWhile pyIsSpace).reverse
          ++ (s.reverse.takeWhile pyIsSpace).reverse := by
        rw [List.reverse_append]
    _ = pyRstrip s ++ (s.reverse.takeWhile pyIsSpace).reverse := rfl
  · intro c hc
    exact List.mem_takeWhile_imp (by simpa using hc)

/-- `lstrip` after `rstrip` after `lstrip` changes nothing further. -/
theorem lstrip_rstrip_lstrip (s : Str) :
    pyLstrip (pyRstrip (pyLstrip s)) = pyRstrip (pyLstrip s) := by
  cases h : pyLstrip s with
  | nil => rfl
  | cons c r =>
    have hc : pyIsSpace c = false := dropWhile_head_false s c r h
    obtain ⟨w, hw, _⟩ := rstrip_decomp (c :: r)
    cases hr : pyRstrip (c :: r) with
    | nil => rfl
    | cons d rd =>
      rw [hr, List.cons_append] at hw
      have hcd : c = d := (List.cons.injEq _ _ _ _).mp hw |>.1
      unfold pyLstrip
      rw [List.dropWhile_cons, if_neg (by rw [← hcd]; simp [hc])]

/-- Python `str.strip` is idempotent. -/
theorem pyStrip_idem (s : Str) : pyStrip (pyStrip s) = pyStrip s := by
  unfold pyStrip
  rw [lstrip_rstrip_lstrip, pyRstrip_idem]

/-- A line is blank exactly when all its characters are whitespace. -/
theorem blank_iff (l : Str) : isBlankLine l = true ↔ ∀ c ∈ l, pyIsSpace c = true := by
  unfold isBlankLine pyStrip
  constructor
  · intro h c hc
    rw [List.isEmpty_iff] at h
    have h2 : ∀ d ∈ pyLstrip l, pyIsSpace d = true := by
      obtain ⟨w, hw, hws⟩ := rstrip_decomp (pyLstrip l)
      rw [h, List.nil_append] at hw
      intro d hd
      exact hws d (hw ▸ hd)
    obtain ⟨w, hw, hws⟩ := lstrip_decomp l
    rw [hw] at hc
    rcases List.mem_append.mp hc with h3 | h3
    · exact hws c h3
    · exact h2 c h3
  · intro h
    rw [List.isEmpty_iff]
    rw [show pyLstrip l = [] from List.dropWhile_eq_nil_iff.mpr h]
    rfl

/-- The last element reported by `getLast?` is a member of the list. -/
theorem mem_of_getLastQ {α : Type} {l : List α} {a : α}
    (h : l.getLast? = some a) : a ∈ l := by
  cases l with
  | nil => simp at h
  | cons b t =>
    rw [List.getLast?_eq_getLast _ (by simp)] at h
    exact Option.some_inj.mp h ▸ List.getLast_mem (by simp)

/-- Right-stripping ignores an all-whitespace suffix. -/
theorem pyRstrip_append_ws (x w : Str) (hw : ∀ c ∈ w, pyIsSpace c = true) :
    pyRstrip (x ++ w) = pyRstrip x := by
  unfold pyRstrip
  rw [List.reverse_append,
    dropWhile_append_all _ _ (fun c hc => hw c (List.mem_reverse.mp hc))]

/-- Right-stripping a compound keeps the prefix intact when the suffix
retains a character. -/
theorem pyRstrip_append_keep (x y : Str) (h : pyRstrip y ≠ []) :
    pyRstrip (x ++ y) = x ++ pyRstrip y := by
  unfold pyRstrip at h ⊢
  rw [List.reverse_append,
    dropWhile_append_stop _ _ (fun h0 => h (by rw [h0]; rfl)),
    List.reverse_append, List.reverse_reverse]

/-- Right-stripping annihilates a string exactly when it is all
whitespace. -/
theorem rstrip_nil_iff (l : Str) :
    pyRstrip l = [] ↔ ∀ c ∈ l, pyIsSpace c = true := by
  unfold pyRstrip
  rw [List.reverse_eq_nil_iff, List.dropWhile_eq_nil_iff]
  constructor
  · intro h c hc
    exact h c (List.mem_reverse.mpr hc)
  · intro h c hc
    exact h c (List.mem_reverse.mp hc)

/-- Left-stripping does not change blankness. -/
theorem blank_lstrip (l : Str) : isBlankLine (pyLstrip l) = isBlankLine l := by
  unfold isBlankLine pyStrip
  rw [pyLstrip_idem]

/-- A non-blank line stays non-blank after right-stripping. -/
theorem blank_rstrip_false (l : Str) (h : isBlankLine l = false) :
    isBlankLine (pyRstrip l) = false := by
  by_contra h2
  have h3 : isBlankLine (pyRstrip l) = true := by
    cases hB : isBlankLine (pyRstrip l)
    · exact absurd hB h2
    · rfl
  have hall : ∀ c ∈ pyRstrip l, pyIsSpace c = true := (blank_iff _).mp h3
  obtain ⟨w, hw, hws⟩ := rstrip_decomp l
  have : isBlankLine l = true := by
    refine (blank_iff l).mpr ?_
    intro c hc
    rw [hw] at hc
    rcases List.mem_append.mp hc with h4 | h4
    · exact hall c h4
    · exact hws c h4
  rw [this] at h
  cases h

/-- A non-blank line left-strips to a non-empty string. -/
theorem notBlank_lstrip_ne (l : Str) (h : isBlankLine l = false) :
    pyLstrip l ≠ [] := by
  intro h0
  have : isBlankLine l = true := by
    unfold isBlankLine pyStrip
    rw [h0]
    rfl
  rw [this] at h
  cases h

/-- A non-blank line right-strips to a non-empty string. -/
theorem notBlank_rstrip_ne (l : Str) (h : isBlankLine l = false) :
    pyRstrip l ≠ [] := by
  intro h0
  have : isBlankLine l = true := (blank_iff l).mpr ((rstrip_nil_iff l).mp h0)
  rw [this] at h
  cases h

/-- A newline-joined non-empty line list with non-empty last line is
itself non-empty. -/
theorem intercalate_ne_nil (ls : List Str) (hne : ls ≠ [])
    (hlast : ls.getLast? ≠ some []) :
    List.intercalate ['\n'] ls ≠ [] := by
  cases ls with
  | nil => exact absurd rfl hne
  | cons a t =>
    cases t with
    | nil =>
      rw [intercalate_single]
      intro h0
      exact hlast (by rw [h0]; rfl)
    | cons b t2 =>
      rw [intercalate_cons₂]
      intro h0
      rcases List.append_eq_nil.mp h0 with ⟨h1, _⟩
      rcases List.append_eq_nil.mp h1 with ⟨_, h3⟩
      cases h3

/-- Left-stripping a newline-joined line list drops leading blank lines
and left-strips the first survivor. -/
theorem lstrip_intercalate : ∀ (ls : List Str),
    pyLstrip (List.intercalate ['\n'] ls) =
      List.intercalate ['\n'] (lstripLines ls) := by
  intro ls
  induction ls with
  | nil => rfl
  | cons l rest ih =>
    by_cases hb : isBlankLine l = true
    · have hlw : ∀ c ∈ l, pyIsSpace c = true := (blank_iff l).mp hb
      have hstep : lstripLines (l :: rest) = lstripLines rest := by
        unfold lstripLines
        rw [List.dropWhile_cons, if_pos hb]
      rw [hstep]
      cases rest with
      | nil =>
        rw [intercalate_single]
        rw [show pyLstrip l = [] from List.dropWhile_eq_nil_iff.mpr hlw]
        rfl
      | cons r t =>
        rw [intercalate_cons₂, List.append_assoc]
        unfold pyLstrip
        rw [dropWhile_append_all _ _ hlw]
        rw [show (['\n'] ++ List.intercalate ['\n'] (r :: t) : Str)
          = '\n' :: List.intercalate ['\n'] (r :: t) from rfl]
        rw [List.dropWhile_cons, if_pos (by decide)]
        exact ih
    · have hbf : isBlankLine l = false := by
        cases hB : isBlankLine l
        · rfl
        · exact absurd hB hb
      have hstep : lstripLines (l :: rest) = pyLstrip l :: rest := by
        unfold lstripLines
        rw [List.dropWhile_cons, if_neg hb]
      rw [hstep]
      cases rest with
      | nil =>
        rw [intercalate_single, intercalate_single]
      | cons r t =>
        rw [intercalate_cons₂, intercalate_cons₂, List.append_assoc,
          List.append_assoc]
        unfold pyLstrip
        rw [dropWhile_append_stop _ _ (notBlank_lstrip_ne l hbf)]

/-- Dropping leading blank lines and left-stripping keeps the last line
non-blank. -/
theorem lstripLines_last (ls : List Str)
    (h : ∀ m, ls.getLast? = some m → isBlankLine m = false) :
    ∀ m, (lstripLines ls).getLast? = some m → isBlankLine m = false := by
  intro m hm
  unfold lstripLines at hm
  cases hd : ls.dropWhile isBlankLine with
  | nil => rw [hd] at hm; simp at hm
  | cons l rest =>
    rw [hd] at hm
    have hls : ls = ls.takeWhile isBlankLine ++ (l :: rest) := by
      conv_lhs => rw [← List.takeWhile_append_dropWhile (p := isBlankLine) (l := ls)]
      rw [hd]
    cases hre : rest with
    | nil =>
      rw [hre] at hm hls
      simp only [List.getLast?_singleton, Option.some_inj] at hm
      have hll : ls.getLast? = some l := by
        rw [hls, List.getLast?_concat]
      rw [← hm, blank_lstrip]
      exact h l hll
    | cons r t =>
      rw [hre] at hm hls
      rw [List.getLast?_cons_cons] at hm
      refine h m ?_
      rw [hls, List.getLast?_append_of_ne_nil _ (by simp),
        List.getLast?_cons_cons]
      exact hm

/-- A line surviving `lstripLines` is an original line or the left-strip
of one. -/
theorem lstripLines_mem (ls : List Str) (m : Str) (hm : m ∈ lstripLines ls) :
    m ∈ ls ∨ ∃ l ∈ ls, m = pyLstrip l := by
  unfold lstripLines at hm
  cases hd : ls.dropWhile isBlankLine with
  | nil => rw [hd] at hm; simp at hm
  | cons l rest =>
    rw [hd] at hm
    have hsub : ∀ x ∈ l :: rest, x ∈ ls := by
      intro x hx
      have hsub2 : List.dropWhile isBlankLine ls ⊆ ls :=
        List.dropWhile_subset isBlankLine
      refine hsub2 ?_
      rw [hd]
      exact hx
    rcases List.mem_cons.mp hm with h1 | h1
    · exact Or.inr ⟨l, hsub l (by simp), h1⟩
    · exact Or.inl (hsub m (by simp [h1]))

/-- `modifyLast` never empties a non-empty list. -/
theorem modifyLast_ne_nil (f : Str → Str) (l : Str) (ls : List Str) :
    modifyLast f (l :: ls) ≠ [] := by
  cases ls with
  | nil => simp [modifyLast]
  | cons r t => simp [modifyLast]

/-- `modifyLast` applies `f` to the last element. -/
theorem modifyLast_last (f : Str → Str) :
    ∀ (ls : List Str) (m : Str), ls.getLast? = some m →
      (modifyLast f ls).getLast? = some (f m) := by
  intro ls
  induction ls with
  | nil => intro m h; simp at h
  | cons l t ih =>
    intro m h
    cases t with
    | nil =>
      simp only [List.getLast?_singleton, Option.some_inj] at h
      rw [← h]
      simp [modifyLast]
    | cons r t2 =>
      rw [List.getLast?_cons_cons] at h
      have h2 := ih m h
      rw [show modifyLast f (l :: r :: t2) = l :: modifyLast f (r :: t2) from rfl]
      cases hz : modifyLast f (r :: t2) with
      | nil => exact absurd hz (modifyLast_ne_nil f r t2)
      | cons a b =>
        rw [hz] at h2
        rw [List.getLast?_cons_cons]
        exact h2

/-- An element of `modifyLast f ls` is an original element or the image
of one. -/
theorem modifyLast_mem (f : Str → Str) :
    ∀ (ls : List Str) (m : Str), m ∈ modifyLast f ls →
      m ∈ ls ∨ ∃ l ∈ ls, m = f l := by
  intro ls
  induction ls with
  | nil => intro m hm; simp [modifyLast] at hm
  | cons l t ih =>
    intro m hm
    cases t with
    | nil =>
      simp only [modifyLast, List.mem_singleton] at hm
      exact Or.inr ⟨l, by simp, hm⟩
    | cons r t2 =>
      rw [show modifyLast f (l :: r :: t2) = l :: modifyLast f (r :: t2) from rfl] at hm
      rcases List.mem_cons.mp hm with h1 | h1
      · exact Or.inl (by simp [h1])
      · rcases ih m h1 with h2 | ⟨a, ha, he⟩
        · exact Or.inl (List.mem_cons_of_mem l h2)
        · exact Or.inr ⟨a, List.mem_cons_of_mem l ha, he⟩

/-- Right-stripping a newline-joined line list whose last line is not
blank right-strips exactly the last line. -/
theorem rstrip_intercalate : ∀ (ls : List Str), ls ≠ [] →
    (∀ m, ls.getLast? = some m → isBlankLine m = false) →
    pyRstrip (List.intercalate ['\n'] ls) =
      List.intercalate ['\n'] (modifyLast pyRstrip ls) := by
  intro ls
  induction ls with
  | nil => intro h; exact absurd rfl h
  | cons l t ih =>
    intro _ hlast
    cases t with
    | nil =>
      rw [intercalate_single,
        show modifyLast pyRstrip [l] = [pyRstrip l] from rfl, intercalate_single]
    | cons r t2 =>
      have hlast2 : ∀ m, (r :: t2).getLast? = some m → isBlankLine m = false := by
        intro m hm
        refine hlast m ?_
        rw [List.getLast?_cons_cons]
        exact hm
      have ihe := ih (by simp) hlast2
      obtain ⟨mL, hmL⟩ : ∃ mL, (r :: t2).getLast? = some mL :=
        ⟨_, List.getLast?_eq_getLast _ (by simp)⟩
      have hmLb : isBlankLine mL = false := hlast2 mL hmL
      have hlast3 := modifyLast_last pyRstrip (r :: t2) mL hmL
      have hne3 : (modifyLast pyRstrip (r :: t2)).getLast? ≠ some [] := by
        rw [hlast3]
        intro h0
        exact notBlank_rstrip_ne mL hmLb (Option.some_inj.mp h0)
      have hI : pyRstrip (List.intercalate ['\n'] (r :: t2)) ≠ [] := by
        rw [ihe]
        exact intercalate_ne_nil _ (modifyLast_ne_nil _ _ _) hne3
      have hk : pyRstrip (['\n'] ++ List.intercalate ['\n'] (r :: t2))
          = ['\n'] ++ pyRstrip (List.intercalate ['\n'] (r :: t2)) :=
        pyRstrip_append_keep _ _ hI
      rw [intercalate_cons₂, List.append_assoc]
      rw [pyRstrip_append_keep l _ (by rw [hk]; simp)]
      rw [hk, ihe]
      rw [show modifyLast pyRstrip (l :: r :: t2)
        = l :: modifyLast pyRstrip (r :: t2) from rfl]
      cases hz : modifyLast pyRstrip (r :: t2) with
      | nil => exact absurd hz (modifyLast_ne_nil _ _ _)
      | cons a b =>
        rw [intercalate_cons₂, List.append_assoc]

/-- `str.strip` of a newline-joined line list whose last line is not
blank acts linewise as `normLines`. -/
theorem pyStrip_intercalate (ls : List Str)
    (h : ∀ m, ls.getLast? = some m → isBlankLine m = false) :
    pyStrip (List.intercalate ['\n'] ls) =
      List.intercalate ['\n'] (normLines ls) := by
  unfold pyStrip normLines
  rw [lstrip_intercalate]
  cases hz : lstripLines ls with
  | nil => rfl
  | cons a b =>
    rw [← hz]
    exact rstrip_intercalate (lstripLines ls) (by rw [hz]; simp)
      (lstripLines_last ls h)

/-- The last `normLines` line is not blank. -/
theorem normLines_last (ls : List Str)
    (h : ∀ m, ls.getLast? = some m → isBlankLine m = false) :
    ∀ m, (normLines ls).getLast? = some m → isBlankLine m = false := by
  intro m hm
  unfold normLines at hm
  cases hz : lstripLines ls with
  | nil => rw [hz] at hm; simp [modifyLast] at hm
  | cons a b =>
    rw [hz] at hm
    obtain ⟨mL, hmL⟩ : ∃ mL, (a :: b).getLast? = some mL :=
      ⟨_, List.getLast?_eq_getLast _ (by simp)⟩
    have h3 := modifyLast_last pyRstrip (a :: b) mL hmL
    rw [h3, Option.some_inj] at hm
    have hb : isBlankLine mL = false := by
      refine lstripLines_last ls h mL ?_
      rw [hz]
      exact hmL
    rw [← hm]
    exact blank_rstrip_false mL hb

/-- Every `normLines` line sits inside an original line between two
all-whitespace paddings. -/
theorem normLines_pad (ls : List Str) (m : Str) (hm : m ∈ normLines ls) :
    ∃ l ∈ ls, ∃ w1 w2, l = (w1 ++ m) ++ w2
      ∧ (∀ c ∈ w1, pyIsSpace c = true) ∧ (∀ c ∈ w2, pyIsSpace c = true) := by
  unfold normLines at hm
  rcases modifyLast_mem pyRstrip (lstripLines ls) m hm with h1 | ⟨z, hz, he⟩
  · rcases lstripLines_mem ls m h1 with h2 | ⟨l, hl, he2⟩
    · exact ⟨m, h2, [], [], by simp, by simp, by simp⟩
    · obtain ⟨w, hw, hws⟩ := lstrip_decomp l
      refine ⟨l, hl, w, [], ?_, hws, by simp⟩
      rw [List.append_nil, he2]
      exact hw
  · obtain ⟨w2, hw2, hw2s⟩ := rstrip_decomp z
    rcases lstripLines_mem ls z hz with h2 | ⟨l, hl, he2⟩
    · refine ⟨z, h2, [], w2, ?_, by simp, hw2s⟩
      rw [List.nil_append, he]
      exact hw2
    · obtain ⟨w1, hw1, hw1s⟩ := lstrip_decomp l
      refine ⟨l, hl, w1, w2, ?_, hw1s, hw2s⟩
      calc l = w1 ++ pyLstrip l := hw1
      _ = w1 ++ z := by rw [← he2]
      _ = w1 ++ (m ++ w2) := by rw [hw2, ← he]
      _ = (w1 ++ m) ++ w2 := by rw [List.append_assoc]

/-- The line splitter consumes a terminator-free prefix into the
accumulator. -/
theorem splitlinesGo_append : ∀ (l : Str), (∀ c ∈ l, isTermChar c = false) →
    ∀ (fuel : Nat) (s acc : Str),
      splitlinesGo (l.length + fuel) (l ++ s) acc
        = splitlinesGo fuel s (l.reverse ++ acc) := by
  intro l
  induction l with
  | nil => intro _ fuel s acc; simp
  | cons c t ih =>
    intro hl fuel s acc
    have hc : isTermChar c = false := hl c (List.mem_cons_self c t)
    have hcr : ¬(c = '\r') := by
      intro h0
      rw [h0] at hc
      exact absurd hc (by decide)
    rw [show (c :: t).length + fuel = t.length + fuel + 1 from by
      simp [List.length_cons]; omega]
    rw [List.cons_append]
    simp only [splitlinesGo]
    rw [if_neg hcr, if_neg (by simp [hc])]
    rw [ih (fun d hd => hl d (List.mem_cons_of_mem c hd)) fuel s (c :: acc)]
    simp [List.append_assoc]

/-- Every line produced by the splitter worker is terminator-free,
provided the accumulator is. -/
theorem splitlinesGo_termfree :
    ∀ (fuel : Nat) (s acc : Str), (∀ c ∈ acc, isTermChar c = false) →
      ∀ l ∈ splitlinesGo fuel s acc, ∀ c ∈ l, isTermChar c = false := by
  intro fuel
  induction fuel with
  | zero =>
    intro s acc hacc l hl c hc
    cases s with
    | nil =>
      simp only [splitlinesGo] at hl
      by_cases hA : acc = []
      · rw [if_pos hA] at hl
        simp at hl
      · rw [if_neg hA] at hl
        simp only [List.mem_singleton] at hl
        subst hl
        exact hacc c (List.mem_reverse.mp hc)
    | cons a t =>
      simp only [splitlinesGo, List.mem_singleton] at hl
      subst hl
      exact hacc c (List.mem_reverse.mp hc)
  | succ f ih =>
    intro s acc hacc l hl c hc
    cases s with
    | nil =>
      simp only [splitlinesGo] at hl
      by_cases hA : acc = []
      · rw [if_pos hA] at hl
        simp at hl
      · rw [if_neg hA] at hl
        simp only [List.mem_singleton] at hl
        subst hl
        exact hacc c (List.mem_reverse.mp hc)
    | cons a t =>
      simp only [splitlinesGo] at hl
      by_cases ha : a = '\r'
      · rw [if_pos ha] at hl
        split at hl
        · rcases List.mem_cons.mp hl with h1 | h1
          · subst h1
            exact hacc c (List.mem_reverse.mp hc)
          · exact ih _ [] (by simp) l h1 c hc
        · rcases List.mem_cons.mp hl with h1 | h1
          · subst h1
            exact hacc c (List.mem_reverse.mp hc)
          · exact ih t [] (by simp) l h1 c hc
      · rw [if_neg ha] at hl
        by_cases hta : isTermChar a = true
        · rw [if_pos hta] at hl
          rcases List.mem_cons.mp hl with h1 | h1
          · subst h1
            exact hacc c (List.mem_reverse.mp hc)
          · exact ih t [] (by simp) l h1 c hc
        · rw [if_neg hta] at hl
          refine ih t (a :: acc) ?_ l hl c hc
          intro d hd
          rcases List.mem_cons.mp hd with h1 | h1
          · subst h1
            cases hT : isTermChar d
            · rfl
            · exact absurd hT hta
          · exact hacc d h1

/-- Every `pySplitlines` line is terminator-free. -/
theorem pySplitlines_termfree (s : Str) :
    ∀ l ∈ pySplitlines s, ∀ c ∈ l, isTermChar c = false :=
  splitlinesGo_termfree s.length s [] (by simp)

/-- Splitting a newline-join recovers the lines, provided the lines are
terminator-free and the final line is non-empty. -/
theorem splitlines_intercalate : ∀ (ls : List Str), ls ≠ [] →
    (∀ l ∈ ls, ∀ c ∈ l, isTermChar c = false) →
    ls.getLast? ≠ some [] →
    pySplitlines (List.intercalate ['\n'] ls) = ls := by
  intro ls
  induction ls with
  | nil => intro h; exact absurd rfl h
  | cons l t ih =>
    intro _ hterm hlast
    cases t with
    | nil =>
      rw [intercalate_single]
      have hlne : l ≠ [] := by
        intro h0
        refine hlast ?_
        rw [h0]
        rfl
      unfold pySplitlines
      have happ := splitlinesGo_append l (hterm l (by simp)) 0 [] []
      rw [List.append_nil, Nat.add_zero] at happ
      rw [happ]
      simp only [splitlinesGo, List.append_nil]
      rw [if_neg (by simp [hlne])]
      rw [List.reverse_reverse]
    | cons l2 t2 =>
      rw [intercalate_cons₂, List.append_assoc, List.singleton_append]
      unfold pySplitlines
      rw [List.length_append]
      rw [splitlinesGo_append l (hterm l (by simp))
        (('\n' :: List.intercalate ['\n'] (l2 :: t2)).length)
        ('\n' :: List.intercalate ['\n'] (l2 :: t2)) []]
      rw [show ('\n' :: List.intercalate ['\n'] (l2 :: t2)).length
        = (List.intercalate ['\n'] (l2 :: t2)).length + 1 from by
        simp [List.length_cons]]
      simp only [splitlinesGo]
      rw [if_neg (show ¬('\n' = '\r') by decide)]
      rw [if_pos (show isTermChar '\n' = true by decide)]
      rw [List.append_nil, List.reverse_reverse]
      have ihh := ih (by simp)
        (fun x hx => hterm x (List.mem_cons_of_mem l hx))
        (fun h0 => hlast (by rw [List.getLast?_cons_cons]; exact h0))
      unfold pySplitlines at ihh
      rw [ihh]

/-- A kept line is an original line that is neither a reply header nor a
quoted line. -/
theorem keepLines_mem : ∀ (ls : List Str) (m : Str), m ∈ keepLines ls →
    m ∈ ls ∧ looksLikeReplyHeader m = false ∧ isQuoteLine m = false := by
  intro ls
  induction ls with
  | nil => intro m hm; simp [keepLines] at hm
  | cons l t ih =>
    intro m hm
    unfold keepLines at hm
    by_cases hh : looksLikeReplyHeader l = true
    · rw [if_pos hh] at hm
      simp at hm
    · rw [if_neg hh] at hm
      by_cases hq : isQuoteLine l = true
      · rw [if_pos hq] at hm
        obtain ⟨h1, h2, h3⟩ := ih m hm
        exact ⟨List.mem_cons_of_mem l h1, h2, h3⟩
      · rw [if_neg hq] at hm
        rcases List.mem_cons.mp hm with h1 | h1
        · subst h1
          refine ⟨List.mem_cons_self _ _, ?_, ?_⟩
          · cases hB : looksLikeReplyHeader m
            · rfl
            · exact absurd hB hh
          · cases hB : isQuoteLine m
            · rfl
            · exact absurd hB hq
        · obtain ⟨h2, h3, h4⟩ := ih m h1
          exact ⟨List.mem_cons_of_mem l h2, h3, h4⟩

/-- The keep loop is the identity on header-free, quote-free line
lists. -/
theorem keepLines_id : ∀ (ls : List Str),
    (∀ l ∈ ls, looksLikeReplyHeader l = false ∧ isQuoteLine l = false) →
    keepLines ls = ls := by
  intro ls
  induction ls with
  | nil => intro _; rfl
  | cons l t ih =>
    intro h
    obtain ⟨h1, h2⟩ := h l (List.mem_cons_self _ _)
    unfold keepLines
    rw [if_neg (by simp [h1]), if_neg (by simp [h2])]
    rw [ih (fun x hx => h x (List.mem_cons_of_mem l hx))]

/-- Dropping trailing blanks keeps only original lines. -/
theorem dropTrailingBlanks_subset (ls : List Str) (m : Str)
    (hm : m ∈ dropTrailingBlanks ls) : m ∈ ls := by
  unfold dropTrailingBlanks at hm
  have h1 : m ∈ ls.reverse.dropWhile isBlankLine := List.mem_reverse.mp hm
  exact List.mem_reverse.mp (List.dropWhile_subset isBlankLine h1)

/-- Dropping trailing blanks is the identity when the last line is not
blank. -/
theorem dropTrailingBlanks_id (ls : List Str)
    (h : ∀ m, ls.getLast? = some m → isBlankLine m = false) :
    dropTrailingBlanks ls = ls := by
  unfold dropTrailingBlanks
  cases hr : ls.reverse with
  | nil =>
    rw [List.reverse_eq_nil_iff.mp hr]
    rfl
  | cons m rr =>
    have hm : ls.getLast? = some m := by
      rw [← List.head?_reverse, hr]
      rfl
    rw [List.dropWhile_cons, if_neg (by simp [h m hm])]
    rw [← hr, List.reverse_reverse]

/-- After dropping trailing blanks the last line is not blank. -/
theorem dropTrailingBlanks_last (ls : List Str) :
    ∀ m, (dropTrailingBlanks ls).getLast? = some m → isBlankLine m = false := by
  intro m hm
  unfold dropTrailingBlanks at hm
  rw [List.getLast?_reverse] at hm
  cases hz : ls.reverse.dropWhile isBlankLine with
  | nil => rw [hz] at hm; simp at hm
  | cons a t =>
    rw [hz] at hm
    simp only [List.head?_cons, Option.some_inj] at hm
    rw [← hm]
    exact dropWhile_head_false ls.reverse a t hz

/-- A case-insensitive prefix test survives appending. -/
theorem ciPre_append (pat x w : Str) (h : ciPre pat x = true) :
    ciPre pat (x ++ w) = true := by
  have hlen := ciPre_length h
  unfold ciPre at h ⊢
  rw [List.take_append_of_le_length hlen]
  exact h

/-- On a newline-free string, `.+$` just tests non-emptiness. -/
theorem dotPlusEnd_nf (x : Str) (hx : ∀ c ∈ x, c ≠ '\n') :
    dotPlusEnd x = !x.isEmpty := by
  simp only [dotPlusEnd]
  have hL : ¬(x.getLast? = some '\n') := by
    intro h0
    exact hx '\n' (mem_of_getLastQ h0) rfl
  rw [if_neg hL]
  have hcont : x.contains '\n' = false := by
    cases hE : x.contains '\n'
    · rfl
    · exact absurd (List.elem_iff.mp hE) (fun hm => hx '\n' hm rfl)
  rw [hcont]
  simp

/-- `\s*.+$` keeps matching after appending newline-free whitespace. -/
theorem spTail_append (x w : Str) (hx : ∀ c ∈ x, c ≠ '\n')
    (hw : ∀ c ∈ w, c ≠ '\n') (h : spTail x = true) :
    spTail (x ++ w) = true := by
  cases x with
  | nil => simp [spTail] at h
  | cons c t =>
    rw [List.cons_append]
    simp only [spTail]
    have hd : dotPlusEnd (c :: (t ++ w)) = true := by
      rw [dotPlusEnd_nf]
      · rfl
      · intro d hd2
        rcases List.mem_cons.mp hd2 with h1 | h1
        · rw [h1]
          exact hx c (List.mem_cons_self c t)
        · rcases List.mem_append.mp h1 with h2 | h2
          · exact hx d (List.mem_cons_of_mem c h2)
          · exact hw d h2
    rw [hd, Bool.true_or]

/-- `\s+.+$` keeps matching after appending newline-free whitespace. -/
theorem spPlusDotEnd_append (x w : Str) (hx : ∀ c ∈ x, c ≠ '\n')
    (hw : ∀ c ∈ w, c ≠ '\n') (h : spPlusDotEnd x = true) :
    spPlusDotEnd (x ++ w) = true := by
  cases x with
  | nil => simp [spPlusDotEnd] at h
  | cons c t =>
    rw [List.cons_append]
    simp only [spPlusDotEnd] at h ⊢
    rw [Bool.and_eq_true] at h
    rw [Bool.and_eq_true]
    refine ⟨h.1, ?_⟩
    exact spTail_append t w (fun d hd => hx d (List.mem_cons_of_mem c hd)) hw h.2

/-- The `.+ wrote:\s*$` scan keeps matching after appending
whitespace. -/
theorem wroteGo_append (w : Str) (hw : ∀ c ∈ w, pyIsSpace c = true) :
    ∀ (x : Str) (seen : Bool), wroteGo seen x = true →
      wroteGo seen (x ++ w) = true := by
  intro x
  induction x with
  | nil =>
    intro seen h
    cases seen
    · exact absurd h (by decide)
    · exact absurd h (by decide)
  | cons c t ih =>
    intro seen h
    rw [wroteGo] at h
    rw [List.cons_append, wroteGo]
    rw [Bool.or_eq_true] at h
    rcases h with hA | hB
    · rw [Bool.and_eq_true, Bool.and_eq_true] at hA
      obtain ⟨⟨hs, hp⟩, hall⟩ := hA
      rw [Bool.or_eq_true]
      refine Or.inl ?_
      have hpre : ts (" wrote:") <+: (c :: t) := List.isPrefixOf_iff_prefix.mp hp
      have hp2 : (ts (" wrote:")).isPrefixOf ((c :: t) ++ w) = true :=
        List.isPrefixOf_iff_prefix.mpr (hpre.trans (List.prefix_append _ _))
      have hdrop : (c :: (t ++ w)).drop 7 = (c :: t).drop 7 ++ w :=
        List.drop_append_of_le_length (by
          have h7 : 7 ≤ (c :: t).length := hpre.length_le
          simp only [List.length_cons] at h7 ⊢
          omega)
      rw [Bool.and_eq_true, Bool.and_eq_true]
      refine ⟨⟨hs, hp2⟩, ?_⟩
      rw [hdrop, List.all_append, Bool.and_eq_true]
      exact ⟨hall, List.all_eq_true.mpr hw⟩
    · have hB2 : (c ≠ '\n' && wroteGo true t) = true := hB
      rw [Bool.or_eq_true]
      refine Or.inr ?_
      show (c ≠ '\n' && wroteGo true (t ++ w)) = true
      rw [Bool.and_eq_true] at hB2
      rw [Bool.and_eq_true]
      exact ⟨hB2.1, ih true hB2.2⟩

/-- `On .+ wrote:\s*$` keeps matching after appending whitespace. -/
theorem reOnWroteCore_append (x w : Str) (hw : ∀ c ∈ w, pyIsSpace c = true)
    (h : reOnWroteCore x = true) : reOnWroteCore (x ++ w) = true := by
  unfold reOnWroteCore at h ⊢
  rw [Bool.and_eq_true] at h
  obtain ⟨hp, hg⟩ := h
  have hpre := List.isPrefixOf_iff_prefix.mp hp
  rw [Bool.and_eq_true]
  refine ⟨List.isPrefixOf_iff_prefix.mpr (hpre.trans (List.prefix_append _ _)), ?_⟩
  rw [List.drop_append_of_le_length (show 3 ≤ x.length from hpre.length_le)]
  exact wroteGo_append w hw (x.drop 3) false hg

/-- The literal `-----Original Message-----\s*$` keeps matching after
appending whitespace. -/
theorem reOrigMsgLitCore_append (x w : Str) (hw : ∀ c ∈ w, pyIsSpace c = true)
    (h : reOrigMsgLitCore x = true) : reOrigMsgLitCore (x ++ w) = true := by
  unfold reOrigMsgLitCore at h ⊢
  rw [Bool.and_eq_true] at h
  obtain ⟨hp, hall⟩ := h
  rw [Bool.and_eq_true]
  refine ⟨ciPre_append _ _ _ hp, ?_⟩
  rw [List.drop_append_of_le_length (show 26 ≤ x.length from ciPre_length hp),
    List.all_append, Bool.and_eq_true]
  exact ⟨hall, List.all_eq_true.mpr hw⟩

/-- `KEY\s+.+$` keeps matching after appending newline-free
whitespace. -/
theorem reHeaderKeyCore_append (key x w : Str)
    (hx : ∀ c ∈ x, c ≠ '\n') ( _hw : ∀ c ∈ w, pyIsSpace c = true)
    (hwn : ∀ c ∈ w, c ≠ '\n')
    (h : reHeaderKeyCore key x = true) : reHeaderKeyCore key (x ++ w) = true := by
  unfold reHeaderKeyCore at h ⊢
  rw [Bool.and_eq_true] at h
  obtain ⟨hp, hs⟩ := h
  rw [Bool.and_eq_true]
  refine ⟨ciPre_append _ _ _ hp, ?_⟩
  rw [List.drop_append_of_le_length (ciPre_length hp)]
  refine spPlusDotEnd_append _ _ ?_ hwn hs
  intro d hd
  exact hx d (List.drop_subset _ _ hd)

/-- The dashed `Original Message` separator keeps matching after
appending whitespace. -/
theorem reOrigMsgDashesCore_append (x w : Str)
    (hw : ∀ c ∈ w, pyIsSpace c = true)
    (h : reOrigMsgDashesCore x = true) :
    reOrigMsgDashesCore (x ++ w) = true := by
  unfold reOrigMsgDashesCore at h ⊢
  simp only [Bool.and_eq_true, decide_eq_true_eq] at h
  obtain ⟨⟨h1, h2⟩, h3, h4⟩ := h
  have hr3ne : List.dropWhile pyIsSpace
      (List.dropWhile (fun c => decide (c = '-')) x) ≠ [] := by
    intro h0
    rw [h0] at h2
    have h16 := ciPre_length h2
    revert h16
    decide
  have hr2ne : List.dropWhile (fun c => decide (c = '-')) x ≠ [] := by
    intro h0
    rw [h0] at hr3ne
    exact hr3ne rfl
  have e1 : List.takeWhile (fun c => decide (c = '-')) (x ++ w)
      = List.takeWhile (fun c => decide (c = '-')) x :=
    takeWhile_append_stop _ _ hr2ne
  have e2 : List.dropWhile (fun c => decide (c = '-')) (x ++ w)
      = List.dropWhile (fun c => decide (c = '-')) x ++ w :=
    dropWhile_append_stop _ _ hr2ne
  have e3 : List.dropWhile pyIsSpace
        (List.dropWhile (fun c => decide (c = '-')) x ++ w)
      = List.dropWhile pyIsSpace
        (List.dropWhile (fun c => decide (c = '-')) x) ++ w :=
    dropWhile_append_stop _ _ hr3ne
  have h16 : 16 ≤ (List.dropWhile pyIsSpace
      (List.dropWhile (fun c => decide (c = '-')) x)).length := ciPre_length h2
  have e4 : (List.dropWhile pyIsSpace
        (List.dropWhile (fun c => decide (c = '-')) x) ++ w).drop 16
      = (List.dropWhile pyIsSpace
        (List.dropWhile (fun c => decide (c = '-')) x)).drop 16 ++ w :=
    List.drop_append_of_le_length h16
  have hr5ne : List.dropWhile pyIsSpace
      ((List.dropWhile pyIsSpace
        (List.dropWhile (fun c => decide (c = '-')) x)).drop 16) ≠ [] := by
    intro h0
    rw [h0] at h3
    revert h3
    decide
  have e5 : List.dropWhile pyIsSpace
        ((List.dropWhile pyIsSpace
          (List.dropWhile (fun c => decide (c = '-')) x)).drop 16 ++ w)
      = List.dropWhile pyIsSpace
        ((List.dropWhile pyIsSpace
          (List.dropWhile (fun c => decide (c = '-')) x)).drop 16) ++ w :=
    dropWhile_append_stop _ _ hr5ne
  simp only [Bool.and_eq_true, decide_eq_true_eq]
  rw [e1, e2, e3, e4, e5]
  refine ⟨⟨h1, ciPre_append _ _ _ h2⟩, ?_⟩
  by_cases hB : List.dropWhile (fun c => decide (c = '-'))
      (List.dropWhile pyIsSpace
        ((List.dropWhile pyIsSpace
          (List.dropWhile (fun c => decide (c = '-')) x)).drop 16)) = []
  · have hr5dash := List.dropWhile_eq_nil_iff.mp hB
    have e6 := takeWhile_append_all _ w hr5dash
    have e7 : List.takeWhile (fun c => decide (c = '-')) w = [] := by
      cases w with
      | nil => rfl
      | cons a t =>
        rw [List.takeWhile_cons, if_neg ?_]
        intro hd
        have ha : a = '-' := of_decide_eq_true hd
        have h5 := hw a (List.mem_cons_self a t)
        rw [ha] at h5
        exact absurd h5 (by decide)
    have e8 := dropWhile_append_all _ w hr5dash
    have e9 : List.dropWhile (fun c => decide (c = '-')) w = w := by
      cases w with
      | nil => rfl
      | cons a t =>
        rw [List.dropWhile_cons, if_neg ?_]
        intro hd
        have ha : a = '-' := of_decide_eq_true hd
        have h5 := hw a (List.mem_cons_self a t)
        rw [ha] at h5
        exact absurd h5 (by decide)
    rw [e6, e7, List.append_nil, e8, e9]
    constructor
    · rw [takeWhile_of_all _ hr5dash] at h3
      exact h3
    · exact List.all_eq_true.mpr hw
  · have e6 := takeWhile_append_stop _ w hB
    have e7 := dropWhile_append_stop _ w hB
    rw [e6, e7, List.all_append]
    refine ⟨h3, ?_⟩
    rw [Bool.and_eq_true]
    exact ⟨h4, List.all_eq_true.mpr hw⟩

/-- Left-stripping a line padded with whitespace on both sides strips
down to the core followed by the right padding. -/
theorem lstrip_pad (m w1 w2 : Str) (hw1 : ∀ c ∈ w1, pyIsSpace c = true)
    (hm : pyLstrip m ≠ []) :
    pyLstrip ((w1 ++ m) ++ w2) = pyLstrip m ++ w2 := by
  rw [List.append_assoc]
  show List.dropWhile pyIsSpace (w1 ++ (m ++ w2)) = _
  rw [dropWhile_append_all _ _ hw1]
  exact dropWhile_append_stop _ _ hm

/-- A line that is no reply header when padded with whitespace is no
reply header when stripped either. -/
theorem headerPad (m w1 w2 : Str)
    (hw1 : ∀ c ∈ w1, pyIsSpace c = true)
    (hw2 : ∀ c ∈ w2, pyIsSpace c = true)
    (hnl : ∀ c ∈ m ++ w2, c ≠ '\n')
    (hfull : looksLikeReplyHeader ((w1 ++ m) ++ w2) = false) :
    looksLikeReplyHeader m = false := by
  by_cases hm : pyLstrip m = []
  · unfold looksLikeReplyHeader reOnWrote reOrigMsgDashes reHeaderKey reOrigMsgLit
    rw [hm]
    decide
  · have hxnl : ∀ c ∈ pyLstrip m, c ≠ '\n' := fun c hc =>
      hnl c (List.mem_append.mpr (Or.inl (List.dropWhile_subset pyIsSpace hc)))
    have hw2nl : ∀ c ∈ w2, c ≠ '\n' := fun c hc =>
      hnl c (List.mem_append.mpr (Or.inr hc))
    unfold looksLikeReplyHeader reOnWrote reOrigMsgDashes reHeaderKey
      reOrigMsgLit at hfull ⊢
    rw [lstrip_pad m w1 w2 hw1 hm] at hfull
    simp only [Bool.or_eq_false_iff] at hfull
    obtain ⟨⟨⟨⟨⟨⟨f1, f2⟩, f3⟩, f4⟩, f5⟩, f6⟩, f7⟩ := hfull
    simp only [Bool.or_eq_false_iff]
    refine ⟨⟨⟨⟨⟨⟨?_, ?_⟩, ?_⟩, ?_⟩, ?_⟩, ?_⟩, ?_⟩
    · cases hB : reOnWroteCore (pyLstrip m)
      · rfl
      · rw [reOnWroteCore_append _ w2 hw2 hB] at f1
        simp at f1
    · cases hB : reOrigMsgDashesCore (pyLstrip m)
      · rfl
      · rw [reOrigMsgDashesCore_append _ w2 hw2 hB] at f2
        simp at f2
    · cases hB : reHeaderKeyCore (ts ("from:")) (pyLstrip m)
      · rfl
      · rw [reHeaderKeyCore_append _ _ w2 hxnl hw2 hw2nl hB] at f3
        simp at f3
    · cases hB : reHeaderKeyCore (ts ("sent:")) (pyLstrip m)
      · rfl
      · rw [reHeaderKeyCore_append _ _ w2 hxnl hw2 hw2nl hB] at f4
        simp at f4
    · cases hB : reHeaderKeyCore (ts ("to:")) (pyLstrip m)
      · rfl
      · rw [reHeaderKeyCore_append _ _ w2 hxnl hw2 hw2nl hB] at f5
        simp at f5
    · cases hB : reHeaderKeyCore (ts ("subject:")) (pyLstrip m)
      · rfl
      · rw [reHeaderKeyCore_append _ _ w2 hxnl hw2 hw2nl hB] at f6
        simp at f6
    · cases hB : reOrigMsgLitCore (pyLstrip m)
      · rfl
      · rw [reOrigMsgLitCore_append _ w2 hw2 hB] at f7
        simp at f7

/-- A line that is no quote line when padded with whitespace is no quote
line when stripped either. -/
theorem quotePad (m w1 w2 : Str)
    (hw1 : ∀ c ∈ w1, pyIsSpace c = true)
    (hfull : isQuoteLine ((w1 ++ m) ++ w2) = false) :
    isQuoteLine m = false := by
  cases hB : isQuoteLine m
  · rfl
  · exfalso
    have hm : pyLstrip m ≠ [] := by
      intro h0
      unfold isQuoteLine at hB
      rw [h0] at hB
      simp at hB
    unfold isQuoteLine at hB hfull
    rw [lstrip_pad m w1 w2 hw1 hm] at hfull
    cases hz : pyLstrip m with
    | nil => exact hm hz
    | cons a u =>
      rw [hz] at hB hfull
      rw [List.cons_append] at hfull
      split at hB
      · rename_i heq
        have ha : a = '>' := (List.cons.injEq _ _ _ _).mp heq |>.1
        rw [ha] at hfull
        simp at hfull
      · simp at hB

/-- C6: the Reply Stripper `strip_replies` is idempotent — stripping an
already-stripped body returns it unchanged, for every input body
text. -/
theorem c6_strip_replies_idem (email_text : Str) :
    strip_replies (strip_replies email_text) = strip_replies email_text := by
  by_cases h0 : email_text.isEmpty = true
  · have h1 : strip_replies email_text = [] := by
      unfold strip_replies
      rw [if_pos h0]
    rw [h1]
    unfold strip_replies
    rw [if_pos (show ([] : Str).isEmpty = true from rfl)]
  · set out := strip_replies email_text with hdefout
    set ls0 := dropTrailingBlanks (keepLines (pySplitlines email_text)) with hls0
    have hout : out = pyStrip (List.intercalate ['\n'] ls0) := by
      rw [hdefout]
      unfold strip_replies
      rw [if_neg h0]
    have h0last : ∀ m, ls0.getLast? = some m → isBlankLine m = false :=
      dropTrailingBlanks_last _
    set ls1 := normLines ls0 with hls1
    have key1 : out = List.intercalate ['\n'] ls1 := by
      rw [hout]
      exact pyStrip_intercalate ls0 h0last
    by_cases hE : out = []
    · rw [hE]
      unfold strip_replies
      rw [if_pos (show ([] : Str).isEmpty = true from rfl)]
    · have hne1 : ls1 ≠ [] := by
        intro hq
        rw [hq] at key1
        exact hE (by rw [key1]; rfl)
      have h1last : ∀ m, ls1.getLast? = some m → isBlankLine m = false :=
        normLines_last ls0 h0last
      have hls0facts : ∀ l ∈ ls0, looksLikeReplyHeader l = false
          ∧ isQuoteLine l = false ∧ ∀ c ∈ l, isTermChar c = false := by
        intro l hl
        have hl2 : l ∈ keepLines (pySplitlines email_text) :=
          dropTrailingBlanks_subset _ l hl
        obtain ⟨hl3, hh, hq⟩ := keepLines_mem _ l hl2
        exact ⟨hh, hq, pySplitlines_termfree email_text l hl3⟩
      have hls1facts : ∀ m ∈ ls1, looksLikeReplyHeader m = false
          ∧ isQuoteLine m = false ∧ ∀ c ∈ m, isTermChar c = false := by
        intro m hm
        obtain ⟨l, hl, w1, w2, hdec, hw1, hw2⟩ := normLines_pad ls0 m hm
        obtain ⟨hh, hq, htf⟩ := hls0facts l hl
        have hmsub : ∀ c ∈ m, c ∈ l := by
          intro c hc
          rw [hdec]
          exact List.mem_append.mpr (Or.inl (List.mem_append.mpr (Or.inr hc)))
        have hw2sub : ∀ c ∈ w2, c ∈ l := by
          intro c hc
          rw [hdec]
          exact List.mem_append.mpr (Or.inr hc)
        have hnl : ∀ c ∈ m ++ w2, c ≠ '\n' := by
          intro c hc hceq
          rcases List.mem_append.mp hc with h1 | h1
          · have h2 := htf c (hmsub c h1)
            rw [hceq] at h2
            exact absurd h2 (by decide)
          · have h2 := htf c (hw2sub c h1)
            rw [hceq] at h2
            exact absurd h2 (by decide)
        refine ⟨?_, ?_, ?_⟩
        · refine headerPad m w1 w2 hw1 hw2 hnl ?_
          rw [← hdec]
          exact hh
        · refine quotePad m w1 w2 hw1 ?_
          rw [← hdec]
          exact hq
        · intro c hc
          exact htf c (hmsub c hc)
      have hlastne : ls1.getLast? ≠ some [] := by
        intro hq
        have h2 := h1last [] hq
        rw [show isBlankLine ([] : Str) = true from rfl] at h2
        cases h2
      have hsl : pySplitlines out = ls1 := by
        rw [key1]
        exact splitlines_intercalate ls1 hne1
          (fun l hl => (hls1facts l hl).2.2) hlastne
      have hkeep : keepLines ls1 = ls1 :=
        keepLines_id ls1 (fun l hl => ⟨(hls1facts l hl).1, (hls1facts l hl).2.1⟩)
      have hdropB : dropTrailingBlanks ls1 = ls1 := dropTrailingBlanks_id ls1 h1last
      have hE2 : out.isEmpty = false := by
        cases hq : out.isEmpty
        · rfl
        · exact absurd (List.isEmpty_iff.mp hq) hE
      rw [show strip_replies out = pyStrip (List.intercalate ['\n']
          (dropTrailingBlanks (keepLines (pySplitlines out)))) from by
        unfold strip_replies
        rw [if_neg (by simp [hE2])]]
      rw [hsl, hkeep, hdropB, ← key1, hout]
      exact pyStrip_idem _

end EmailTodo
